import Mathlib

/-!
# Xenon interrupt controller (arch/powerpc/platforms/xenon/interrupt.c)

A shallow embedding of the interrupt-controller code: the memory-mapped register
windows are stores indexed by byte offset, every register access and every
diagnostic is appended to a trace, and the C functions become state-passing
functions on `Machine`. The SMP message pass of `smp.c` and the reply-cache lookup of
`drivers/xenon/smc-core.c` are embedded alongside.
-/

namespace Xenon

/-! ## Data model -/

/-- The four register windows behind the static pointers `iic_base`, `bridge_base`,
`biu` and `graphics`. -/
inductive Window where
  | iic
  | bridge
  | biu
  | graphics
  deriving DecidableEq, Repr

/-- The diagnostics printed by the code, one tag per `printk` format string. -/
inductive Msg where
  | disconnect_irq
  | connect_irq
  | irq_unhandled
  | unhandled_ipi
  | request_ipi_failed
  | init_on_cpu
  | iic_init
  | cant_resolve
  deriving DecidableEq, Repr

/-- One observable step of the code: a register access, a barrier, a diagnostic, or a
call into the generic interrupt layer. Offsets are byte offsets from the window base. -/
inductive Event where
  | printk (msg : Msg) (arg : Int)
  | writel (w : Window) (off : Nat) (val : Nat)
  | out_be64 (w : Window) (off : Nat) (val : Nat)
  | in_be64 (w : Window) (off : Nat) (val : Nat)
  | mb
  | irq_create_mapping (hw : Int) (virq : Nat)
  | smp_request_message_ipi (virq : Nat) (ipi : Int)
  | ioremap_nocache (w : Window) (phys : Nat) (size : Nat)
  | irq_domain_add_nomap
  | irq_set_default_host
  | of_node_put
  | set_get_irq
  deriving DecidableEq, Repr

/-- The state the code runs against.
* `mem w off` is the content of the register at byte offset `off` of window `w`;
* `pending cpu` is the destructive-read pending register of core `cpu`: the raw values
  its next reads return, after which it reads the idle value `0x7C`;
* `action idx` tells whether `irq_desc[idx].action` is non-NULL;
* `virq_of hw` is what `irq_create_mapping(host, hw)` returns;
* `trace` is the sequence of events so far, oldest first. -/
structure Machine where
  mem : Window → Nat → Nat
  pending : Nat → List Nat
  action : Nat → Bool
  virq_of : Int → Nat
  trace : List Event

/-- Result of a function that may hit `BUG()`: either it returns a value, or it stops
in the state reached at the `BUG()`. -/
inductive Outcome (α : Type) where
  | ok (val : α) (m : Machine)
  | bug (m : Machine)

/-- The machine state an outcome ends in. -/
def Outcome.machine {α : Type} : Outcome α → Machine
  | .ok _ m => m
  | .bug m => m

/-- Whether the outcome is a `BUG()` stop. -/
def Outcome.isBug {α : Type} : Outcome α → Bool
  | .ok _ _ => false
  | .bug _ => true

/-- Conversion of a C `int` to `u32`. -/
def toU32 (x : Int) : Nat := (x % 2 ^ 32).toNat

/-- Conversion of a C `int` to `u64` (sign extension). -/
def toU64 (x : Int) : Nat := (x % 2 ^ 64).toNat

/-- Append an event to the trace. -/
def Machine.emit (m : Machine) (e : Event) : Machine :=
  { m with trace := m.trace ++ [e] }

/-- Replace the content of one register. -/
def Machine.store (m : Machine) (w : Window) (off val : Nat) : Machine :=
  { m with mem := fun w1 o => if w1 = w ∧ o = off then val else m.mem w1 o }

/-- The primitive `printk`. -/
def printk (msg : Msg) (arg : Int) (m : Machine) : Machine :=
  m.emit (.printk msg arg)

/-- The primitive `writel(val, base + off)`: a 32-bit store. -/
def writel (val : Nat) (w : Window) (off : Nat) (m : Machine) : Machine :=
  (m.store w off (val % 2 ^ 32)).emit (.writel w off (val % 2 ^ 32))

/-- The primitive `out_be64(iic_base + off, val)`: a 64-bit store. -/
def out_be64 (off : Nat) (val : Nat) (m : Machine) : Machine :=
  (m.store .iic off (val % 2 ^ 64)).emit (.out_be64 .iic off (val % 2 ^ 64))

/-- The primitive `in_be64(iic_base + off)`. Offset `0x50` of a core region is the
pending register: reading it consumes the oldest latched value, and yields `0x7C` when
nothing is latched. Every other register reads back its content. -/
def in_be64 (off : Nat) (m : Machine) : Nat × Machine :=
  if off % 0x1000 = 0x50 then
    match m.pending (off / 0x1000) with
    | [] => (0x7C, m.emit (.in_be64 .iic off 0x7C))
    | v :: rest =>
      (v, { m with
            pending := fun c => if c = off / 0x1000 then rest else m.pending c,
            trace := m.trace ++ [.in_be64 .iic off v] })
  else
    (m.mem .iic off, m.emit (.in_be64 .iic off (m.mem .iic off)))

/-- The primitive `mb()`. -/
def mb (m : Machine) : Machine := m.emit .mb

/-! ## Constants -/

def PRIO_IPI_4 : Int := 0x08
def PRIO_IPI_3 : Int := 0x10
def PRIO_SMM : Int := 0x14
def PRIO_SFCX : Int := 0x18
def PRIO_SATA_HDD : Int := 0x20
def PRIO_SATA_CDROM : Int := 0x24
def PRIO_OHCI_0 : Int := 0x2c
def PRIO_EHCI_0 : Int := 0x30
def PRIO_OHCI_1 : Int := 0x34
def PRIO_EHCI_1 : Int := 0x38
def PRIO_XMA : Int := 0x40
def PRIO_AUDIO : Int := 0x44
def PRIO_ENET : Int := 0x4C
def PRIO_XPS : Int := 0x54
def PRIO_GRAPHICS : Int := 0x58
def PRIO_PROFILER : Int := 0x60
def PRIO_BIU : Int := 0x64
def PRIO_IOC : Int := 0x68
def PRIO_FSB : Int := 0x6c
def PRIO_IPI_2 : Int := 0x70
def PRIO_CLOCK : Int := 0x74
def PRIO_IPI_1 : Int := 0x78

/-- Modelled from the spec: the value of `NO_IRQ` comes from the architecture header
`asm/irq.h`, which is not among the sources; it is the "nothing to dispatch" result, and
the header of this kernel generation defines it as 0. -/
def NO_IRQ : Nat := 0

/-- Modelled from the spec: the four IPI message kinds (function-call, single-target
function call, reschedule, debugger-break) are constants of the header `asm/smp.h`,
which is not among the sources. The spec fixes that there are four distinct kinds; the
numbering is the one of the header of this kernel generation. -/
def PPC_MSG_CALL_FUNCTION : Int := 0

/-- Modelled from the spec: see `PPC_MSG_CALL_FUNCTION`. -/
def PPC_MSG_RESCHEDULE : Int := 1

/-- Modelled from the spec: see `PPC_MSG_CALL_FUNCTION`. -/
def PPC_MSG_CALL_FUNC_SINGLE : Int := 2

/-- Modelled from the spec: see `PPC_MSG_CALL_FUNCTION`. -/
def PPC_MSG_DEBUGGER_BREAK : Int := 3

/-- The static table `xenon_pci_irq_map`: bridge (PCI) IRQ -> CPU IRQ. -/
def xenon_pci_irq_map : List Int :=
  [PRIO_CLOCK, PRIO_SATA_CDROM, PRIO_SATA_HDD, PRIO_SMM,
   PRIO_OHCI_0, PRIO_EHCI_0, PRIO_OHCI_1, PRIO_EHCI_1,
   -1, -1, PRIO_ENET, PRIO_XMA,
   PRIO_AUDIO, PRIO_SFCX, -1, -1]

/-- The table access `xenon_pci_irq_map[i]`; the loops only use `i < 0x10`. -/
def pci_irq_map_at (i : Nat) : Int := xenon_pci_irq_map.getD i (-1)

/-! ## Route controller -/

/-- The routing word `0x0800180 | (xenon_pci_irq_map[i]/4)` of slot `i`; the division
is C integer division, which truncates towards zero. -/
def connect_value (i : Nat) : Nat :=
  toU32 (Int.lor 0x0800180 (Int.tdiv (pci_irq_map_at i) 4))

/-- One iteration of the loop of `disconnect_pci_irq`. -/
def disconnect_step (prio : Int) (m : Machine) (i : Nat) : Machine :=
  if pci_irq_map_at i = prio then writel 0 .bridge (0x10 + i * 4) m else m

/-- The function `disconnect_pci_irq(prio)`. -/
def disconnect_pci_irq (prio : Int) (m : Machine) : Machine :=
  (List.range 0x10).foldl (disconnect_step prio) (printk .disconnect_irq prio m)

/-- One iteration of the loop of `connect_pci_irq`. -/
def connect_step (prio : Int) (m : Machine) (i : Nat) : Machine :=
  if pci_irq_map_at i = prio then writel (connect_value i) .bridge (0x10 + i * 4) m else m

/-- The function `connect_pci_irq(prio)`: connects a PCI IRQ to CPU #0. -/
def connect_pci_irq (prio : Int) (m : Machine) : Machine :=
  (List.range 0x10).foldl (connect_step prio) (printk .connect_irq prio m)

/-! ## Interrupt controller core -/

/-- The function `iic_eoi`, run on core `cpu` (the value of `hard_smp_processor_id()`). -/
def iic_eoi (cpu : Nat) (m : Machine) : Machine :=
  let my_iic_base := cpu * 0x1000
  let m := out_be64 (my_iic_base + 0x68) 0 m
  let m := mb m
  (in_be64 (my_iic_base + 0x8) m).2

/-- The `switch (index)` of `iic_get_irq`: the side-channel acknowledgments. -/
def iic_get_irq_hack (index : Nat) (m : Machine) : Machine :=
  if (index : Int) = PRIO_GRAPHICS then
    writel 0 .graphics 0x6540 (writel 0 .graphics 0xed0 m)
  else if (index : Int) = PRIO_IOC then
    writel 0 .biu 0x4002c m
  else if (index : Int) = PRIO_CLOCK then
    writel 0 .bridge 0x106C m
  else m

/-- The function `iic_get_irq`, run on core `cpu`: get an IRQ number from the pending
state register of the IIC. -/
def iic_get_irq (cpu : Nat) (m : Machine) : Nat × Machine :=
  let my_iic_base := cpu * 0x1000
  let r := in_be64 (my_iic_base + 0x50) m
  let index := r.1 &&& 0x7F
  let m := out_be64 (my_iic_base + 0x08) 0x7c r.2
  let m := mb m
  let m := (in_be64 (my_iic_base + 0x8) m).2
  let m := iic_get_irq_hack index m
  if !m.action index then
    let m := printk .irq_unhandled index m
    let m := out_be64 (my_iic_base + 0x60) 0 m
    let m := iic_eoi cpu m
    (NO_IRQ, m)
  else if index = 0x7C then
    (NO_IRQ, m)
  else
    (index, m)

/-! ## IPI subsystem -/

/-- The function `ipi_to_prio`; the default branch prints and stops at `BUG()`. -/
def ipi_to_prio (ipi : Int) (m : Machine) : Outcome Int :=
  if ipi = PPC_MSG_CALL_FUNCTION then .ok PRIO_IPI_1 m
  else if ipi = PPC_MSG_CALL_FUNC_SINGLE then .ok PRIO_IPI_2 m
  else if ipi = PPC_MSG_RESCHEDULE then .ok PRIO_IPI_3 m
  else if ipi = PPC_MSG_DEBUGGER_BREAK then .ok PRIO_IPI_4 m
  else .bug (printk .unhandled_ipi ipi m)

/-- The word `(0x10000<<target) | ipi_prio` written by `xenon_cause_IPI`, as the `u64`
argument of `out_be64`. The target is a core number (0..5), for which the 32-bit `int`
expression does not overflow. -/
def ipi_word (target : Nat) (ipi_prio : Int) : Nat :=
  toU64 (Int.lor ((0x10000 <<< target : Nat) : Int) ipi_prio)

/-- The function `xenon_cause_IPI(target, msg)`, run on core `cpu`. -/
def xenon_cause_IPI (cpu : Nat) (target : Nat) (msg : Int) (m : Machine) : Outcome Unit :=
  match ipi_to_prio msg m with
  | .bug m1 => .bug m1
  | .ok ipi_prio m1 =>
    .ok () (out_be64 (0x10 + cpu * 0x1000) (ipi_word target ipi_prio) m1)

/-- The function `xenon_request_ipi(ipi, name)`; `name` only appears in the failure
diagnostic. -/
def xenon_request_ipi (ipi : Int) (m : Machine) : Outcome Unit :=
  match ipi_to_prio ipi m with
  | .bug m1 => .bug m1
  | .ok prio m1 =>
    let virq := m1.virq_of prio
    let m2 := m1.emit (.irq_create_mapping prio virq)
    if virq = NO_IRQ then
      .ok () (printk .request_ipi_failed prio m2)
    else
      .ok () (m2.emit (.smp_request_message_ipi virq ipi))

/-! ## Chip operations, core bring-up and controller initialisation -/

/-- Conversion of an `unsigned int` to `int`, as happens to `d->irq` when it is passed
to `disconnect_pci_irq` / `connect_pci_irq`. -/
def u32_to_int (x : Nat) : Int :=
  if x % 2 ^ 32 < 2 ^ 31 then ((x % 2 ^ 32 : Nat) : Int) else ((x % 2 ^ 32 : Nat) : Int) - 2 ^ 32

/-- The function `iic_mask`; `irq` is `d->irq`. -/
def iic_mask (irq : Nat) (m : Machine) : Machine :=
  disconnect_pci_irq (u32_to_int irq) m

/-- One iteration of the loop of `iic_unmask`. -/
def iic_unmask_step (m : Machine) (i : Nat) : Machine :=
  out_be64 (i * 0x1000 + 0x68) 0 m

/-- The function `iic_unmask`; `irq` is `d->irq`. -/
def iic_unmask (irq : Nat) (m : Machine) : Machine :=
  (List.range 6).foldl iic_unmask_step (connect_pci_irq (u32_to_int irq) m)

/-- The loop `while (in_be64(iic_base + cpu * 0x1000 + 0x50) != 0x7C);` of
`xenon_init_irq_on_cpu`, with a bound on the number of reads: `none` when the bound is
reached before a read returns `0x7C`. -/
def drain_pending (cpu : Nat) : Nat → Machine → Option Machine
  | 0, _ => none
  | fuel + 1, m =>
    let r := in_be64 (cpu * 0x1000 + 0x50) m
    if r.1 ≠ 0x7C then drain_pending cpu fuel r.2 else some r.2

/-- The function `xenon_init_irq_on_cpu(cpu)`, with the bound `fuel` on the reads of its
drain loop. The `int` expression `1<<cpu` does not overflow for a core number (0..5). -/
def xenon_init_irq_on_cpu (fuel : Nat) (cpu : Nat) (m : Machine) : Option Machine :=
  let m := printk .init_on_cpu cpu m
  let m := out_be64 (cpu * 0x1000 + 0x70) 0x7c m
  let m := out_be64 (cpu * 0x1000 + 0x8) 0 m
  let m := out_be64 (cpu * 0x1000) (1 <<< cpu) m
  match drain_pending cpu fuel m with
  | none => none
  | some m => some (out_be64 (cpu * 0x1000 + 0x68) 0 m)

/-- A device-tree node named "interrupt-controller", as far as `xenon_iic_init_IRQ`
looks at it: whether `of_device_is_compatible(dn, "xenon")` holds, and the start address
`of_address_to_resource(dn, 0, &res)` resolves to (`none` when it fails). -/
structure DtNode where
  compatible : Bool
  resource : Option Nat
  deriving DecidableEq, Repr

/-- The search loop of `xenon_iic_init_IRQ` over the nodes named
"interrupt-controller". The value is `false` when the function returns from inside the
loop (address not resolved) and `true` when the loop runs to its end. `host_ok` tells
whether `irq_domain_add_nomap` returns a domain; without one the code stops (it
dereferences `host` and then reaches `BUG_ON(host == NULL)`). -/
def find_controller (host_ok : Bool) : List DtNode → Machine → Outcome Bool
  | [], m => .ok true m
  | dn :: rest, m =>
    if !dn.compatible then find_controller host_ok rest m
    else
      match dn.resource with
      | none => .ok false ((printk .cant_resolve 0 m).emit .of_node_put)
      | some start =>
        let m := m.emit (.ioremap_nocache .iic start 0x10000)
        let m := m.emit .irq_domain_add_nomap
        if !host_ok then .bug m
        else find_controller host_ok rest (m.emit .irq_set_default_host)

/-- One iteration of the loop of `xenon_iic_init_IRQ` that disconnects all PCI IRQs. -/
def init_disconnect_step (m : Machine) (i : Nat) : Machine :=
  writel 0 .bridge (0x10 + i * 4) m

/-- The part of `xenon_iic_init_IRQ` after the search loop, up to the call of
`xenon_init_irq_on_cpu(0)`. -/
def iic_init_bridge (m : Machine) : Machine :=
  let m := m.emit .set_get_irq
  let m := m.emit (.ioremap_nocache .bridge 0xea000000 0x10000)
  let m := m.emit (.ioremap_nocache .biu 0xe1000000 0x2000000)
  let m := m.emit (.ioremap_nocache .graphics 0xec800000 0x10000)
  let m := writel 0 .bridge 0 m
  let m := writel 0x40000000 .bridge 4 m
  let m := writel 0x40000000 .biu 0x40074 m
  let m := writel 0xea000050 .biu 0x40078 m
  let m := writel 0 .bridge 0xc m
  let m := writel 0x3 .bridge 0 m
  (List.range 0x10).foldl init_disconnect_step m

/-- The function `xenon_iic_init_IRQ`, run on the list of device-tree nodes named
"interrupt-controller"; `fuel` bounds the drain loop of `xenon_init_irq_on_cpu(0)`. When
no node is compatible the loop ends with `iic_base` still unset and the code goes on all
the same. -/
def xenon_iic_init_IRQ (fuel : Nat) (nodes : List DtNode) (host_ok : Bool) (m : Machine) :
    Option (Outcome Unit) :=
  match find_controller host_ok nodes (printk .iic_init 0 m) with
  | .bug m1 => some (.bug m1)
  | .ok false m1 => some (.ok () m1)
  | .ok true m1 =>
    match xenon_init_irq_on_cpu fuel 0 (iic_init_bridge m1) with
    | none => none
    | some m2 => some (.ok () m2)

/-! ## SMP message pass (arch/powerpc/platforms/xenon/smp.c) -/

/-- The loop `for_each_online_cpu(i) xenon_cause_IPI(i, msg);` over the online cores in
increasing order, run on core `cpu`; it stops at the first `BUG()`. -/
def message_pass_loop (cpu : Nat) (msg : Int) : List Nat → Machine → Outcome Unit
  | [], m => .ok () m
  | i :: rest, m =>
    match xenon_cause_IPI cpu i msg m with
    | .bug m1 => .bug m1
    | .ok _ m1 => message_pass_loop cpu msg rest m1

/-- The function `smp_xenon_message_pass(target, msg)`, run on core `cpu`. `NR_CPUS` is
a build configuration value and `online` the online mask, both outside the sources. -/
def smp_xenon_message_pass (NR_CPUS : Nat) (online : Nat → Bool) (cpu : Nat) (target : Nat)
    (msg : Int) (m : Machine) : Outcome Unit :=
  if target < NR_CPUS then xenon_cause_IPI cpu target msg m
  else message_pass_loop cpu msg ((List.range NR_CPUS).filter online) m

/-! ## SMC reply cache (drivers/xenon/smc-core.c) -/

/-- A row of `smc_reply` as initialised by `{ id }`: the command id followed by 15 zero
bytes. -/
def smc_row (id : Nat) : List Nat := id :: List.replicate 15 0

/-- The static table `smc_reply[][16]`: 13 rows of 16 bytes, with no further row after
the last one. -/
def smc_reply : List (List Nat) :=
  [smc_row 0x01, smc_row 0x04, smc_row 0x07, smc_row 0x0a, smc_row 0x0f, smc_row 0x11,
   smc_row 0x12, smc_row 0x13, smc_row 0x16, smc_row 0x17, smc_row 0x1e, smc_row 0x20,
   smc_row 0x83]

/-- What `_xenon_smc_cache_lookup` comes to: a pointer to row `row` of the table, `NULL`,
or a read of `ptr[0]` at row index `row`, which is not a row of the table. -/
inductive SmcLookup where
  | found (row : Nat)
  | null
  | out_of_bounds (row : Nat)
  deriving DecidableEq, Repr

/-- The loop of `_xenon_smc_cache_lookup`, with `ptr` at row `i` and `rows` the rows of
the table from there on: `while (ptr[0]) { if (msg[0] == ptr[0]) return ptr; ptr += 16; }
return NULL;`. With no row left the read of `ptr[0]` falls outside the table. -/
def smc_cache_lookup_from (msg0 : Nat) : List (List Nat) → Nat → SmcLookup
  | [], i => .out_of_bounds i
  | row :: rest, i =>
    if row.headD 0 = 0 then .null
    else if msg0 = row.headD 0 then .found i
    else smc_cache_lookup_from msg0 rest (i + 1)

/-- The function `_xenon_smc_cache_lookup(msg)` on the table `tbl`, starting at
`smc_reply[0]`. -/
def _xenon_smc_cache_lookup (tbl : List (List Nat)) (msg : List Nat) : SmcLookup :=
  smc_cache_lookup_from (msg.headD 0) tbl 0

/-! ## The controller's reaction to a trigger write -/

/-- Whether an event is a write to a controller register outside the control region of
core `a` (the region of core `a` is the offsets from `a * 0x1000` up to
`(a + 1) * 0x1000`). -/
def Event.writesOtherCore (a : Nat) : Event → Bool
  | .out_be64 .iic o _ => o / 0x1000 != a
  | _ => false

/-- Whether an event writes a register (of any window). -/
def Event.isWrite : Event → Bool
  | .writel _ _ _ => true
  | .out_be64 _ _ _ => true
  | _ => false

/-- Whether an event writes a register outside the controller window, that is a
graphics, BIU or bridge register. -/
def Event.isPeripheralWrite : Event → Bool
  | .writel w _ _ => w != .iic
  | .out_be64 w _ _ => w != .iic
  | _ => false

/-- A machine for examples: all registers hold `0xffffffff`, nothing is latched, no
handler is registered, mappings fail, and the trace is empty. -/
def Machine.sample : Machine :=
  { mem := fun _ _ => 0xffffffff
    pending := fun _ => []
    action := fun _ => false
    virq_of := fun _ => 0
    trace := [] }

/-! ## Route controller: the scan over the slot table -/

theorem writel_mem (val : Nat) (w : Window) (off : Nat) (m : Machine) (w1 : Window) (o : Nat) :
    (writel val w off m).mem w1 o = if w1 = w ∧ o = off then val % 2 ^ 32 else m.mem w1 o :=
  rfl

theorem writel_trace (val : Nat) (w : Window) (off : Nat) (m : Machine) :
    (writel val w off m).trace = m.trace ++ [Event.writel w off (val % 2 ^ 32)] :=
  rfl

/-- A scan that writes `v i` to the routing register of every slot `i` of `l` mapped to
`prio` leaves every other register as it was. -/
theorem scan_mem_frame (step : Machine → Nat → Machine) (v : Nat → Nat) (prio : Int)
    (hstep : ∀ m i, step m i =
      if pci_irq_map_at i = prio then writel (v i) .bridge (0x10 + i * 4) m else m)
    (w : Window) (o : Nat) (l : List Nat) :
    ∀ m : Machine,
      (∀ i ∈ l, pci_irq_map_at i = prio → ¬ (w = Window.bridge ∧ o = 0x10 + i * 4)) →
      (l.foldl step m).mem w o = m.mem w o := by
  induction l with
  | nil => intro m _; rfl
  | cons i l ih =>
    intro m h
    rw [List.foldl_cons, ih (step m i) (fun j hj => h j (List.mem_cons_of_mem i hj)), hstep]
    by_cases hi : pci_irq_map_at i = prio
    · rw [if_pos hi, writel_mem, if_neg (h i (List.mem_cons_self i l) hi)]
    · rw [if_neg hi]

/-- After the scan, the routing register of a slot of `l` mapped to `prio` holds the
word written for that slot, whatever it held before. -/
theorem scan_mem_slot (step : Machine → Nat → Machine) (v : Nat → Nat) (prio : Int)
    (hstep : ∀ m i, step m i =
      if pci_irq_map_at i = prio then writel (v i) .bridge (0x10 + i * 4) m else m)
    (s : Nat) (hs : pci_irq_map_at s = prio) (l : List Nat) :
    ∀ m : Machine, l.Nodup → s ∈ l →
      (l.foldl step m).mem .bridge (0x10 + s * 4) = v s % 2 ^ 32 := by
  induction l with
  | nil => intro m _ h; cases h
  | cons i l ih =>
    intro m hnd hmem
    rw [List.nodup_cons] at hnd
    rw [List.foldl_cons]
    by_cases hsl : s ∈ l
    · exact ih (step m i) hnd.2 hsl
    · have hsi : s = i := by
        rcases List.mem_cons.mp hmem with h | h
        · exact h
        · exact absurd h hsl
      subst hsi
      rw [scan_mem_frame step v prio hstep Window.bridge (0x10 + s * 4) l (step m s), hstep,
        if_pos hs, writel_mem, if_pos ⟨rfl, rfl⟩]
      intro j hj _ hc
      have : j = s := by omega
      exact hsl (this ▸ hj)

/-- The scan appends one `writel` per slot of `l` mapped to `prio`, in slot order, and
nothing else. -/
theorem scan_trace (step : Machine → Nat → Machine) (v : Nat → Nat) (prio : Int)
    (hstep : ∀ m i, step m i =
      if pci_irq_map_at i = prio then writel (v i) .bridge (0x10 + i * 4) m else m)
    (l : List Nat) :
    ∀ m : Machine,
      (l.foldl step m).trace = m.trace ++
        (l.filter (fun i => decide (pci_irq_map_at i = prio))).map
          (fun i => Event.writel .bridge (0x10 + i * 4) (v i % 2 ^ 32)) := by
  induction l with
  | nil => intro m; simp
  | cons i l ih =>
    intro m
    rw [List.foldl_cons, ih (step m i), hstep]
    by_cases hi : pci_irq_map_at i = prio
    · rw [if_pos hi, writel_trace, List.filter_cons_of_pos (by simpa using hi)]
      simp
    · rw [if_neg hi, List.filter_cons_of_neg (by simpa using hi)]

/-- The scan touches neither the pending registers, nor the handler table, nor the
mapping oracle. -/
theorem scan_rest (step : Machine → Nat → Machine) (v : Nat → Nat) (prio : Int)
    (hstep : ∀ m i, step m i =
      if pci_irq_map_at i = prio then writel (v i) .bridge (0x10 + i * 4) m else m)
    (l : List Nat) :
    ∀ m : Machine,
      (l.foldl step m).pending = m.pending ∧ (l.foldl step m).action = m.action
        ∧ (l.foldl step m).virq_of = m.virq_of := by
  induction l with
  | nil => intro m; exact ⟨rfl, rfl, rfl⟩
  | cons i l ih =>
    intro m
    rw [List.foldl_cons]
    refine (ih (step m i)).imp (fun h => h.trans ?_) (fun h => h.imp (fun h => h.trans ?_)
      (fun h => h.trans ?_)) <;>
    · rw [hstep]; split <;> rfl

theorem connect_step_eq (prio : Int) (m : Machine) (i : Nat) :
    connect_step prio m i =
      if pci_irq_map_at i = prio then writel (connect_value i) .bridge (0x10 + i * 4) m
      else m :=
  rfl

theorem disconnect_step_eq (prio : Int) (m : Machine) (i : Nat) :
    disconnect_step prio m i =
      if pci_irq_map_at i = prio then writel ((fun _ => 0) i) .bridge (0x10 + i * 4) m
      else m :=
  rfl

/-- The routing word of a routed slot: `0x0800180 | (p/4)` for its priority code `p`. -/
theorem connect_value_routed :
    ∀ s, s < 0x10 → pci_irq_map_at s ≠ -1 →
      connect_value s % 2 ^ 32 = 0x0800180 ||| ((pci_irq_map_at s).toNat / 4) := by
  decide

/-! ## Claims on the route controller -/

/-- C1: for every slot `s` in 0..15 whose table entry is a priority code `p` (not the
unrouted sentinel -1) and every prior state, after `connect_pci_irq p` the routing
register of slot `s` (bridge offset `0x10 + 4*s`) holds `0x0800180 | (p/4)`; slot 0 is
mapped to the clock code `0x74`, and `connect_pci_irq 0x74` leaves the register at
offset `0x10` equal to `0x0800180 | (0x74/4)`. -/
theorem connect_pci_irq_routes (m : Machine) (s : Nat) (p : Int) (hs : s < 0x10)
    (hp : pci_irq_map_at s = p) (hne : p ≠ -1) :
    (connect_pci_irq p m).mem .bridge (0x10 + 4 * s) = 0x0800180 ||| (p.toNat / 4)
      ∧ pci_irq_map_at 0 = PRIO_CLOCK ∧ PRIO_CLOCK = 0x74
      ∧ (connect_pci_irq 0x74 m).mem .bridge 0x10 = 0x0800180 ||| (0x74 / 4) := by
  have key : ∀ (t : Nat), t < 0x10 → pci_irq_map_at t ≠ -1 →
      (connect_pci_irq (pci_irq_map_at t) m).mem .bridge (0x10 + t * 4)
        = 0x0800180 ||| ((pci_irq_map_at t).toNat / 4) := by
    intro t ht hne
    unfold connect_pci_irq
    rw [scan_mem_slot (connect_step (pci_irq_map_at t)) connect_value (pci_irq_map_at t)
      (connect_step_eq (pci_irq_map_at t)) t rfl (List.range 0x10) _ (List.nodup_range 0x10)
      (List.mem_range.mpr ht)]
    exact connect_value_routed t ht hne
  refine ⟨?_, by decide, by decide, ?_⟩
  · subst hp
    rw [Nat.mul_comm 4 s]
    exact key s hs hne
  · exact key 0 (by decide) (by decide)

/-- Slot 0 of the sample machine: its register goes from `0xffffffff` to the routing word
of the clock code. -/
theorem connect_pci_irq_routes_witness :
    (0 < 0x10 ∧ pci_irq_map_at 0 = 0x74 ∧ (0x74 : Int) ≠ -1)
      ∧ ((connect_pci_irq 0x74 Machine.sample).mem .bridge (0x10 + 4 * 0)
            = 0x0800180 ||| ((0x74 : Int).toNat / 4)
          ∧ pci_irq_map_at 0 = PRIO_CLOCK ∧ PRIO_CLOCK = 0x74
          ∧ (connect_pci_irq 0x74 Machine.sample).mem .bridge 0x10
            = 0x0800180 ||| (0x74 / 4)) :=
  ⟨by decide,
    connect_pci_irq_routes Machine.sample 0 0x74 (by decide) (by decide) (by decide)⟩

/-- C2: for every slot `s` in 0..15 with table entry `p` and every prior state, after
`disconnect_pci_irq p` the routing register of slot `s` is 0; in particular
`connect_pci_irq p` followed by `disconnect_pci_irq p` leaves it at 0. -/
theorem disconnect_pci_irq_clears (m : Machine) (s : Nat) (p : Int) (hs : s < 0x10)
    (hp : pci_irq_map_at s = p) :
    (disconnect_pci_irq p m).mem .bridge (0x10 + 4 * s) = 0
      ∧ (disconnect_pci_irq p (connect_pci_irq p m)).mem .bridge (0x10 + 4 * s) = 0 := by
  have key : ∀ m1 : Machine, (disconnect_pci_irq p m1).mem .bridge (0x10 + 4 * s) = 0 := by
    intro m1
    unfold disconnect_pci_irq
    rw [Nat.mul_comm 4 s, scan_mem_slot (disconnect_step p) (fun _ => 0) p
      (disconnect_step_eq p) s hp (List.range 0x10) _ (List.nodup_range 0x10)
      (List.mem_range.mpr hs)]
    rfl
  exact ⟨key m, key _⟩

/-- Slot 10 (the network line, code `0x4C`) of the sample machine. -/
theorem disconnect_pci_irq_clears_witness :
    (10 < 0x10 ∧ pci_irq_map_at 10 = 0x4C)
      ∧ ((disconnect_pci_irq 0x4C Machine.sample).mem .bridge (0x10 + 4 * 10) = 0
          ∧ (disconnect_pci_irq 0x4C (connect_pci_irq 0x4C Machine.sample)).mem .bridge
              (0x10 + 4 * 10) = 0) :=
  ⟨by decide, disconnect_pci_irq_clears Machine.sample 10 0x4C (by decide) (by decide)⟩

/-- C3: `connect_pci_irq p` and `disconnect_pci_irq p` change no register other than the
routing registers of the slots whose table entry is `p`, and their only register
accesses are the writes to those; so when no slot maps to `p` (as for the IPI codes
`0x08`, `0x10`, `0x70`, `0x78` and the graphics code `0x58`) the call returns with all
registers unchanged and a trace that only gained the diagnostic line. -/
theorem connect_disconnect_frame (m : Machine) (p : Int) :
    (∀ w o, (∀ s, s < 0x10 → pci_irq_map_at s = p → ¬ (w = Window.bridge ∧ o = 0x10 + 4 * s)) →
        (connect_pci_irq p m).mem w o = m.mem w o
          ∧ (disconnect_pci_irq p m).mem w o = m.mem w o)
      ∧ (∃ ws : List Nat, (∀ s ∈ ws, s < 0x10 ∧ pci_irq_map_at s = p)
          ∧ (connect_pci_irq p m).trace = m.trace ++ Event.printk .connect_irq p ::
              ws.map (fun s => Event.writel .bridge (0x10 + 4 * s) (connect_value s))
          ∧ (disconnect_pci_irq p m).trace = m.trace ++ Event.printk .disconnect_irq p ::
              ws.map (fun s => Event.writel .bridge (0x10 + 4 * s) 0))
      ∧ ((∀ s, s < 0x10 → pci_irq_map_at s ≠ p) →
          (connect_pci_irq p m).mem = m.mem
            ∧ (connect_pci_irq p m).trace = m.trace ++ [Event.printk .connect_irq p]
            ∧ (disconnect_pci_irq p m).mem = m.mem
            ∧ (disconnect_pci_irq p m).trace = m.trace ++ [Event.printk .disconnect_irq p])
      ∧ (∀ q ∈ [PRIO_IPI_4, PRIO_IPI_3, PRIO_IPI_2, PRIO_IPI_1, PRIO_GRAPHICS],
          ∀ s, s < 0x10 → pci_irq_map_at s ≠ q) := by
  have hframe : ∀ w o,
      (∀ s, s < 0x10 → pci_irq_map_at s = p → ¬ (w = Window.bridge ∧ o = 0x10 + 4 * s)) →
        (connect_pci_irq p m).mem w o = m.mem w o
          ∧ (disconnect_pci_irq p m).mem w o = m.mem w o := by
    intro w o h
    have h1 : ∀ i ∈ List.range 0x10, pci_irq_map_at i = p →
        ¬ (w = Window.bridge ∧ o = 0x10 + i * 4) := by
      intro i hi hpi
      rw [Nat.mul_comm i 4]
      exact h i (List.mem_range.mp hi) hpi
    constructor
    · unfold connect_pci_irq
      rw [scan_mem_frame (connect_step p) connect_value p (connect_step_eq p) w o _ _ h1]
      rfl
    · unfold disconnect_pci_irq
      rw [scan_mem_frame (disconnect_step p) (fun _ => 0) p (disconnect_step_eq p) w o _ _ h1]
      rfl
  have htc := scan_trace (connect_step p) connect_value p (connect_step_eq p)
    (List.range 0x10) (printk .connect_irq p m)
  have htd := scan_trace (disconnect_step p) (fun _ => 0) p (disconnect_step_eq p)
    (List.range 0x10) (printk .disconnect_irq p m)
  have hval : ∀ s, connect_value s < 4294967296 := by
    intro s
    unfold connect_value toU32
    omega
  refine ⟨hframe, ⟨(List.range 0x10).filter (fun i => decide (pci_irq_map_at i = p)), ?_, ?_, ?_⟩,
    ?_, by decide⟩
  · intro s hs
    rw [List.mem_filter, List.mem_range] at hs
    exact ⟨hs.1, by simpa using hs.2⟩
  · unfold connect_pci_irq
    rw [htc]
    simp [printk, Machine.emit, Nat.mul_comm]
    intro a _ _
    exact hval a
  · unfold disconnect_pci_irq
    rw [htd]
    simp [printk, Machine.emit, Nat.mul_comm]
  · intro hno
    have hnil : (List.range 0x10).filter (fun i => decide (pci_irq_map_at i = p)) = [] := by
      rw [List.filter_eq_nil_iff]
      intro i hi
      simpa using hno i (List.mem_range.mp hi)
    refine ⟨?_, ?_, ?_, ?_⟩
    · funext w o
      exact (hframe w o (fun s hs hps => absurd hps (hno s hs))).1
    · unfold connect_pci_irq
      rw [htc, hnil]
      simp [printk, Machine.emit]
    · funext w o
      exact (hframe w o (fun s hs hps => absurd hps (hno s hs))).2
    · unfold disconnect_pci_irq
      rw [htd, hnil]
      simp [printk, Machine.emit]

/-- The graphics code `0x58` on the sample machine: registers unchanged, one diagnostic. -/
theorem connect_disconnect_frame_witness :
    (∀ s, s < 0x10 → pci_irq_map_at s ≠ 0x58)
      ∧ (connect_pci_irq 0x58 Machine.sample).mem = Machine.sample.mem
      ∧ (connect_pci_irq 0x58 Machine.sample).trace
          = Machine.sample.trace ++ [Event.printk .connect_irq 0x58]
      ∧ (disconnect_pci_irq 0x58 Machine.sample).mem = Machine.sample.mem
      ∧ (disconnect_pci_irq 0x58 Machine.sample).trace
          = Machine.sample.trace ++ [Event.printk .disconnect_irq 0x58] :=
  ⟨by decide, (connect_disconnect_frame Machine.sample 0x58).2.2.1 (by decide)⟩

/-! ## Claims on the IPI subsystem -/

theorem ipi_to_prio_known (m : Machine) :
    ipi_to_prio PPC_MSG_CALL_FUNCTION m = .ok PRIO_IPI_1 m
      ∧ ipi_to_prio PPC_MSG_CALL_FUNC_SINGLE m = .ok PRIO_IPI_2 m
      ∧ ipi_to_prio PPC_MSG_RESCHEDULE m = .ok PRIO_IPI_3 m
      ∧ ipi_to_prio PPC_MSG_DEBUGGER_BREAK m = .ok PRIO_IPI_4 m :=
  ⟨rfl, rfl, rfl, rfl⟩

/-- The four ways `ipi_to_prio` returns, and the one way it stops. -/
theorem ipi_to_prio_cases (ipi : Int) (m : Machine) :
    (ipi = PPC_MSG_CALL_FUNCTION ∧ ipi_to_prio ipi m = .ok PRIO_IPI_1 m)
      ∨ (ipi = PPC_MSG_CALL_FUNC_SINGLE ∧ ipi_to_prio ipi m = .ok PRIO_IPI_2 m)
      ∨ (ipi = PPC_MSG_RESCHEDULE ∧ ipi_to_prio ipi m = .ok PRIO_IPI_3 m)
      ∨ (ipi = PPC_MSG_DEBUGGER_BREAK ∧ ipi_to_prio ipi m = .ok PRIO_IPI_4 m)
      ∨ (ipi ∉ [PPC_MSG_CALL_FUNCTION, PPC_MSG_CALL_FUNC_SINGLE, PPC_MSG_RESCHEDULE,
            PPC_MSG_DEBUGGER_BREAK]
          ∧ ipi_to_prio ipi m = .bug (printk .unhandled_ipi ipi m)) := by
  by_cases h1 : ipi = PPC_MSG_CALL_FUNCTION
  · exact Or.inl ⟨h1, by rw [h1]; rfl⟩
  by_cases h2 : ipi = PPC_MSG_CALL_FUNC_SINGLE
  · exact Or.inr (Or.inl ⟨h2, by rw [h2]; rfl⟩)
  by_cases h3 : ipi = PPC_MSG_RESCHEDULE
  · exact Or.inr (Or.inr (Or.inl ⟨h3, by rw [h3]; rfl⟩))
  by_cases h4 : ipi = PPC_MSG_DEBUGGER_BREAK
  · exact Or.inr (Or.inr (Or.inr (Or.inl ⟨h4, by rw [h4]; rfl⟩)))
  · refine Or.inr (Or.inr (Or.inr (Or.inr ⟨?_, ?_⟩)))
    · simp [h1, h2, h3, h4]
    · simp [ipi_to_prio, h1, h2, h3, h4]

/-- C4: `ipi_to_prio` sends function-call to `0x78`, single-target function call to
`0x70`, reschedule to `0x10` and debugger-break to `0x08`; it is injective on the four
kinds, its image is exactly these four codes, and it has an inverse `decode` with
`decode (encode k) = k` on the kinds and `encode (decode p) = p` on the codes. -/
theorem ipi_to_prio_bijective (m : Machine) :
    (ipi_to_prio PPC_MSG_CALL_FUNCTION m = .ok 0x78 m
        ∧ ipi_to_prio PPC_MSG_CALL_FUNC_SINGLE m = .ok 0x70 m
        ∧ ipi_to_prio PPC_MSG_RESCHEDULE m = .ok 0x10 m
        ∧ ipi_to_prio PPC_MSG_DEBUGGER_BREAK m = .ok 0x08 m)
      ∧ (∀ k1 k2 p, ipi_to_prio k1 m = .ok p m → ipi_to_prio k2 m = .ok p m → k1 = k2)
      ∧ (∀ p, (∃ k, ipi_to_prio k m = .ok p m) ↔ p ∈ [(0x08 : Int), 0x10, 0x70, 0x78])
      ∧ (∃ decode : Int → Int,
          (∀ k p, ipi_to_prio k m = .ok p m → decode p = k)
            ∧ (∀ p ∈ [(0x08 : Int), 0x10, 0x70, 0x78], ipi_to_prio (decode p) m = .ok p m)) := by
  have hcases : ∀ k p, ipi_to_prio k m = .ok p m →
      (k = PPC_MSG_CALL_FUNCTION ∧ p = 0x78) ∨ (k = PPC_MSG_CALL_FUNC_SINGLE ∧ p = 0x70)
        ∨ (k = PPC_MSG_RESCHEDULE ∧ p = 0x10) ∨ (k = PPC_MSG_DEBUGGER_BREAK ∧ p = 0x08) := by
    intro k p h
    rcases ipi_to_prio_cases k m with ⟨hk, e⟩ | ⟨hk, e⟩ | ⟨hk, e⟩ | ⟨hk, e⟩ | ⟨_, e⟩
    · rw [e, Outcome.ok.injEq] at h; exact Or.inl ⟨hk, h.1.symm⟩
    · rw [e, Outcome.ok.injEq] at h; exact Or.inr (Or.inl ⟨hk, h.1.symm⟩)
    · rw [e, Outcome.ok.injEq] at h; exact Or.inr (Or.inr (Or.inl ⟨hk, h.1.symm⟩))
    · rw [e, Outcome.ok.injEq] at h; exact Or.inr (Or.inr (Or.inr ⟨hk, h.1.symm⟩))
    · rw [e] at h; cases h
  refine ⟨⟨rfl, rfl, rfl, rfl⟩, ?_, ?_, ?_⟩
  · intro k1 k2 p h1 h2
    rcases hcases k1 p h1 with ⟨a, b⟩ | ⟨a, b⟩ | ⟨a, b⟩ | ⟨a, b⟩ <;>
      rcases hcases k2 p h2 with ⟨c, d⟩ | ⟨c, d⟩ | ⟨c, d⟩ | ⟨c, d⟩ <;>
      first
        | (exfalso; rw [b] at d; revert d; decide)
        | (rw [a, c])
  · intro p
    constructor
    · rintro ⟨k, hk⟩
      rcases hcases k p hk with ⟨_, b⟩ | ⟨_, b⟩ | ⟨_, b⟩ | ⟨_, b⟩ <;> rw [b] <;> decide
    · intro hp
      simp only [List.mem_cons, List.mem_singleton, List.not_mem_nil, or_false] at hp
      rcases hp with h | h | h | h
      · exact ⟨PPC_MSG_DEBUGGER_BREAK, by rw [h]; rfl⟩
      · exact ⟨PPC_MSG_RESCHEDULE, by rw [h]; rfl⟩
      · exact ⟨PPC_MSG_CALL_FUNC_SINGLE, by rw [h]; rfl⟩
      · exact ⟨PPC_MSG_CALL_FUNCTION, by rw [h]; rfl⟩
  · refine ⟨fun p => if p = 0x78 then PPC_MSG_CALL_FUNCTION
        else if p = 0x70 then PPC_MSG_CALL_FUNC_SINGLE
        else if p = 0x10 then PPC_MSG_RESCHEDULE
        else PPC_MSG_DEBUGGER_BREAK, ?_, ?_⟩
    · intro k p h
      rcases hcases k p h with ⟨a, b⟩ | ⟨a, b⟩ | ⟨a, b⟩ | ⟨a, b⟩ <;> rw [a, b] <;> rfl
    · intro p hp
      simp only [List.mem_cons, List.mem_singleton, List.not_mem_nil, or_false] at hp
      rcases hp with h | h | h | h <;> rw [h] <;> rfl

/-- The reschedule kind and its code `0x10` on the sample machine. -/
theorem ipi_to_prio_bijective_witness :
    ipi_to_prio PPC_MSG_RESCHEDULE Machine.sample = .ok 0x10 Machine.sample
      ∧ (∃ k, ipi_to_prio k Machine.sample = .ok 0x10 Machine.sample) :=
  ⟨(ipi_to_prio_bijective Machine.sample).1.2.2.1,
    ((ipi_to_prio_bijective Machine.sample).2.2.1 0x10).mpr (by decide)⟩

/-- C5: `ipi_to_prio` stops at `BUG()` exactly when the kind is none of the four
recognised ones, and never returns code 0; hence `xenon_cause_IPI` and
`xenon_request_ipi` with an unrecognised kind stop with nothing but the diagnostic
added to the trace: no register is written, no mapping is created or registered. -/
theorem ipi_to_prio_bug_iff (m : Machine) (ipi : Int) :
    ((ipi_to_prio ipi m).isBug = true ↔
        ipi ∉ [PPC_MSG_CALL_FUNCTION, PPC_MSG_CALL_FUNC_SINGLE, PPC_MSG_RESCHEDULE,
          PPC_MSG_DEBUGGER_BREAK])
      ∧ (∀ m1, ipi_to_prio ipi m ≠ .ok 0 m1)
      ∧ (ipi ∉ [PPC_MSG_CALL_FUNCTION, PPC_MSG_CALL_FUNC_SINGLE, PPC_MSG_RESCHEDULE,
            PPC_MSG_DEBUGGER_BREAK] →
          (∀ cpu target, xenon_cause_IPI cpu target ipi m = .bug (printk .unhandled_ipi ipi m))
            ∧ xenon_request_ipi ipi m = .bug (printk .unhandled_ipi ipi m)
            ∧ (printk .unhandled_ipi ipi m).mem = m.mem
            ∧ (printk .unhandled_ipi ipi m).trace
                = m.trace ++ [Event.printk .unhandled_ipi ipi]) := by
  refine ⟨?_, ?_, ?_⟩
  · rcases ipi_to_prio_cases ipi m with ⟨hk, e⟩ | ⟨hk, e⟩ | ⟨hk, e⟩ | ⟨hk, e⟩ | ⟨hk, e⟩
    · rw [e]; simp [Outcome.isBug, hk]
    · rw [e]; simp [Outcome.isBug, hk]
    · rw [e]; simp [Outcome.isBug, hk]
    · rw [e]; simp [Outcome.isBug, hk]
    · rw [e]; simp only [Outcome.isBug, true_iff]; exact hk
  · intro m1 h
    rcases ipi_to_prio_cases ipi m with ⟨_, e⟩ | ⟨_, e⟩ | ⟨_, e⟩ | ⟨_, e⟩ | ⟨_, e⟩ <;>
      rw [e] at h
    · rw [Outcome.ok.injEq] at h; exact absurd h.1 (by decide)
    · rw [Outcome.ok.injEq] at h; exact absurd h.1 (by decide)
    · rw [Outcome.ok.injEq] at h; exact absurd h.1 (by decide)
    · rw [Outcome.ok.injEq] at h; exact absurd h.1 (by decide)
    · cases h
  · intro hk
    have e : ipi_to_prio ipi m = .bug (printk .unhandled_ipi ipi m) := by
      rcases ipi_to_prio_cases ipi m with ⟨h, _⟩ | ⟨h, _⟩ | ⟨h, _⟩ | ⟨h, _⟩ | ⟨_, e⟩
      · exact absurd (by simp [h]) hk
      · exact absurd (by simp [h]) hk
      · exact absurd (by simp [h]) hk
      · exact absurd (by simp [h]) hk
      · exact e
    refine ⟨fun cpu target => ?_, ?_, rfl, rfl⟩
    · unfold xenon_cause_IPI; rw [e]
    · unfold xenon_request_ipi; rw [e]

/-- The unrecognised kind 7 on the sample machine, sent from core 1 to core 0. -/
theorem ipi_to_prio_bug_iff_witness :
    (7 : Int) ∉ [PPC_MSG_CALL_FUNCTION, PPC_MSG_CALL_FUNC_SINGLE, PPC_MSG_RESCHEDULE,
        PPC_MSG_DEBUGGER_BREAK]
      ∧ xenon_cause_IPI 1 0 7 Machine.sample = .bug (printk .unhandled_ipi 7 Machine.sample)
      ∧ xenon_request_ipi 7 Machine.sample = .bug (printk .unhandled_ipi 7 Machine.sample) :=
  ⟨by decide, ((ipi_to_prio_bug_iff Machine.sample 7).2.2 (by decide)).1 1 0,
    ((ipi_to_prio_bug_iff Machine.sample 7).2.2 (by decide)).2.1⟩

/-- The trigger word for a core number below 6 and an IPI code: the code in the low 16
bits, the one-hot target mask from bit 16 up. -/
theorem ipi_word_eq :
    ∀ t, t < 6 → ∀ p ∈ [PRIO_IPI_1, PRIO_IPI_2, PRIO_IPI_3, PRIO_IPI_4],
      ipi_word t p % 2 ^ 64 = (0x10000 <<< t) ||| p.toNat
        ∧ ((0x10000 <<< t) ||| p.toNat) % 0x10000 = p.toNat
        ∧ ((0x10000 <<< t) ||| p.toNat) / 0x10000 = 1 <<< t := by
  decide

/-- What `xenon_cause_IPI` does for a recognised kind. -/
theorem xenon_cause_IPI_ok (m : Machine) (cpu t : Nat) (k p : Int)
    (hk : ipi_to_prio k m = .ok p m) :
    xenon_cause_IPI cpu t k m = .ok () (out_be64 (0x10 + cpu * 0x1000) (ipi_word t p) m) := by
  unfold xenon_cause_IPI
  rw [hk]

/-- C6, as the code has it: for every target core `t` (below 6) and every recognised
kind `k` with priority code `p`, `xenon_cause_IPI` appends exactly one event, a write to
the IPI-trigger register of the sending core, and the word written is
`(0x10000 << t) | p`: the code in the low 16 bits and the mask `1 << t` above them. -/
theorem xenon_cause_IPI_word (m : Machine) (cpu t : Nat) (k p : Int) (ht : t < 6)
    (hk : ipi_to_prio k m = .ok p m) :
    (xenon_cause_IPI cpu t k m).isBug = false
      ∧ (xenon_cause_IPI cpu t k m).machine.trace = m.trace ++
          [Event.out_be64 .iic (0x10 + cpu * 0x1000) ((0x10000 <<< t) ||| p.toNat)]
      ∧ ((0x10000 <<< t) ||| p.toNat) % 0x10000 = p.toNat
      ∧ ((0x10000 <<< t) ||| p.toNat) / 0x10000 = 1 <<< t := by
  have hp : p ∈ [PRIO_IPI_1, PRIO_IPI_2, PRIO_IPI_3, PRIO_IPI_4] := by
    rcases ipi_to_prio_cases k m with ⟨_, e⟩ | ⟨_, e⟩ | ⟨_, e⟩ | ⟨_, e⟩ | ⟨_, e⟩ <;>
      rw [e] at hk
    · rw [Outcome.ok.injEq] at hk; rw [← hk.1]; decide
    · rw [Outcome.ok.injEq] at hk; rw [← hk.1]; decide
    · rw [Outcome.ok.injEq] at hk; rw [← hk.1]; decide
    · rw [Outcome.ok.injEq] at hk; rw [← hk.1]; decide
    · cases hk
  have hw := ipi_word_eq t ht p hp
  rw [xenon_cause_IPI_ok m cpu t k p hk]
  refine ⟨rfl, ?_, hw.2.1, hw.2.2⟩
  show m.trace ++ [Event.out_be64 .iic (0x10 + cpu * 0x1000) (ipi_word t p % 2 ^ 64)] = _
  rw [hw.1]

/-- Core 2 sends a reschedule to core 3: one write of `0x80010` at offset `0x2010`. -/
theorem xenon_cause_IPI_word_witness :
    (3 < 6 ∧ ipi_to_prio PPC_MSG_RESCHEDULE Machine.sample = .ok 0x10 Machine.sample)
      ∧ (xenon_cause_IPI 2 3 PPC_MSG_RESCHEDULE Machine.sample).machine.trace
          = Machine.sample.trace ++ [Event.out_be64 .iic (0x10 + 2 * 0x1000) 0x80010] :=
  ⟨⟨by decide, rfl⟩,
    (xenon_cause_IPI_word Machine.sample 2 3 PPC_MSG_RESCHEDULE 0x10 (by decide) rfl).2.1⟩

/-- C6, as stated, fails: core 0 sending a function-call IPI to core 0 writes the word
`0x10078`, not `(1 << 0) | 0x78 = 0x79`. -/
theorem xenon_cause_IPI_word_counterexample :
    (xenon_cause_IPI 0 0 PPC_MSG_CALL_FUNCTION Machine.sample).machine.trace
        = [Event.out_be64 .iic 0x10 0x10078]
      ∧ (xenon_cause_IPI 0 0 PPC_MSG_CALL_FUNCTION Machine.sample).machine.trace
        ≠ [Event.out_be64 .iic 0x10 ((1 <<< 0) ||| 0x78)] := by
  decide

/-- C7: `xenon_cause_IPI` run on core `s` writes no register other than the IPI-trigger
register of core `s` (controller offset `s*0x1000 + 0x10`, inside the region of core `s`),
whatever the target; and a send from another core `s2` writes a different address, so
it leaves the word written by core `s` in place. -/
theorem xenon_cause_IPI_own_region (m : Machine) (s t : Nat) (k : Int) :
    (∃ evs, (xenon_cause_IPI s t k m).machine.trace = m.trace ++ evs
        ∧ ∀ e ∈ evs, e.isWrite = true →
            ∃ v, e = Event.out_be64 .iic (s * 0x1000 + 0x10) v)
      ∧ (∀ w o, ¬ (w = Window.iic ∧ o = s * 0x1000 + 0x10) →
          (xenon_cause_IPI s t k m).machine.mem w o = m.mem w o)
      ∧ (s * 0x1000 ≤ s * 0x1000 + 0x10 ∧ s * 0x1000 + 0x10 < (s + 1) * 0x1000)
      ∧ (∀ s2, s2 ≠ s → s2 * 0x1000 + 0x10 ≠ s * 0x1000 + 0x10)
      ∧ (∀ s2 t2 k2, s2 ≠ s →
          (xenon_cause_IPI s2 t2 k2 (xenon_cause_IPI s t k m).machine).machine.mem .iic
              (s * 0x1000 + 0x10)
            = (xenon_cause_IPI s t k m).machine.mem .iic (s * 0x1000 + 0x10)) := by
  have hshape : ∀ (m0 : Machine) (c u : Nat) (j : Int),
      (∃ p, xenon_cause_IPI c u j m0
          = .ok () (out_be64 (0x10 + c * 0x1000) (ipi_word u p) m0))
        ∨ xenon_cause_IPI c u j m0 = .bug (printk .unhandled_ipi j m0) := by
    intro m0 c u j
    rcases ipi_to_prio_cases j m0 with ⟨_, e⟩ | ⟨_, e⟩ | ⟨_, e⟩ | ⟨_, e⟩ | ⟨_, e⟩
    · exact Or.inl ⟨_, xenon_cause_IPI_ok m0 c u j _ e⟩
    · exact Or.inl ⟨_, xenon_cause_IPI_ok m0 c u j _ e⟩
    · exact Or.inl ⟨_, xenon_cause_IPI_ok m0 c u j _ e⟩
    · exact Or.inl ⟨_, xenon_cause_IPI_ok m0 c u j _ e⟩
    · right; unfold xenon_cause_IPI; rw [e]
  have hmem : ∀ (m0 : Machine) (c u : Nat) (j : Int) (w : Window) (o : Nat),
      ¬ (w = Window.iic ∧ o = c * 0x1000 + 0x10) →
        (xenon_cause_IPI c u j m0).machine.mem w o = m0.mem w o := by
    intro m0 c u j w o hne
    rcases hshape m0 c u j with ⟨p, e⟩ | e <;> rw [e]
    · show (if w = Window.iic ∧ o = 0x10 + c * 0x1000 then _ else m0.mem w o) = _
      rw [if_neg (by rw [Nat.add_comm]; exact hne)]
    · rfl
  refine ⟨?_, hmem m s t k, ⟨by omega, by omega⟩, fun s2 h => by omega, ?_⟩
  · rcases hshape m s t k with ⟨p, e⟩ | e <;> rw [e]
    · refine ⟨[Event.out_be64 .iic (0x10 + s * 0x1000) (ipi_word t p % 2 ^ 64)], rfl, ?_⟩
      intro ev hev _
      rw [List.mem_singleton] at hev
      exact ⟨_, by rw [hev, Nat.add_comm]⟩
    · refine ⟨[Event.printk .unhandled_ipi k], rfl, ?_⟩
      intro ev hev hw
      rw [List.mem_singleton] at hev
      rw [hev] at hw
      cases hw
  · intro s2 t2 k2 hs
    exact hmem _ s2 t2 k2 Window.iic _ (fun h => by omega)

/-- Cores 1 and 4 both send to core 0 on the sample machine: the word of core 1 at
offset `0x1010` survives the send of core 4. -/
theorem xenon_cause_IPI_own_region_witness :
    (4 : Nat) ≠ 1
      ∧ (xenon_cause_IPI 4 0 PPC_MSG_RESCHEDULE
            (xenon_cause_IPI 1 0 PPC_MSG_CALL_FUNCTION Machine.sample).machine).machine.mem
          .iic (1 * 0x1000 + 0x10)
        = (xenon_cause_IPI 1 0 PPC_MSG_CALL_FUNCTION Machine.sample).machine.mem .iic
            (1 * 0x1000 + 0x10) :=
  ⟨by decide,
    (xenon_cause_IPI_own_region Machine.sample 1 0 PPC_MSG_CALL_FUNCTION).2.2.2.2 4 0
      PPC_MSG_RESCHEDULE (by decide)⟩

/-! ## Claims on the interrupt controller core -/

theorem in_be64_trace (off : Nat) (m : Machine) :
    (in_be64 off m).2.trace = m.trace ++ [Event.in_be64 .iic off (in_be64 off m).1] := by
  unfold in_be64
  split
  · split <;> rfl
  · rfl

theorem in_be64_mem (off : Nat) (m : Machine) : (in_be64 off m).2.mem = m.mem := by
  unfold in_be64
  split
  · split <;> rfl
  · rfl

theorem in_be64_action (off : Nat) (m : Machine) : (in_be64 off m).2.action = m.action := by
  unfold in_be64
  split
  · split <;> rfl
  · rfl

theorem in_be64_val (off : Nat) (m : Machine) (h : off % 0x1000 ≠ 0x50) :
    (in_be64 off m).1 = m.mem .iic off := by
  unfold in_be64
  rw [if_neg h]

/-- The side-channel switch only appends `writel`s of 0 to windows other than the
controller, and leaves the controller registers and the handler table alone. -/
theorem iic_get_irq_hack_spec (index : Nat) (m : Machine) :
    (iic_get_irq_hack index m).action = m.action
      ∧ (∀ o, (iic_get_irq_hack index m).mem .iic o = m.mem .iic o)
      ∧ ∃ side, (iic_get_irq_hack index m).trace = m.trace ++ side
          ∧ ∀ e ∈ side, ∃ w o, w ≠ Window.iic ∧ e = Event.writel w o 0 := by
  unfold iic_get_irq_hack
  split
  · refine ⟨rfl, fun o => ?_, [Event.writel .graphics 0xed0 0, Event.writel .graphics 0x6540 0],
      by simp [writel, Machine.emit, Machine.store], ?_⟩
    · simp [writel, Machine.emit, Machine.store]
    · intro e he
      simp only [List.mem_cons, List.mem_singleton, List.not_mem_nil, or_false] at he
      rcases he with h | h <;> exact ⟨_, _, by decide, h⟩
  · split
    · refine ⟨rfl, fun o => ?_, [Event.writel .biu 0x4002c 0],
        by simp [writel, Machine.emit, Machine.store], ?_⟩
      · simp [writel, Machine.emit, Machine.store]
      · intro e he
        rw [List.mem_singleton] at he
        exact ⟨_, _, by decide, he⟩
    · split
      · refine ⟨rfl, fun o => ?_, [Event.writel .bridge 0x106C 0],
          by simp [writel, Machine.emit, Machine.store], ?_⟩
        · simp [writel, Machine.emit, Machine.store]
        · intro e he
          rw [List.mem_singleton] at he
          exact ⟨_, _, by decide, he⟩
      · exact ⟨rfl, fun _ => rfl, [], by simp, by simp⟩

/-- The result and the trace of `iic_get_irq` on core `cpu`, in terms of the raw value
read from the pending register and of the handler table. -/
theorem iic_get_irq_spec (cpu : Nat) (m : Machine) :
    (iic_get_irq cpu m).1
        = (if m.action ((in_be64 (cpu * 0x1000 + 0x50) m).1 &&& 0x7F) = false then NO_IRQ
           else if (in_be64 (cpu * 0x1000 + 0x50) m).1 &&& 0x7F = 0x7C then NO_IRQ
           else (in_be64 (cpu * 0x1000 + 0x50) m).1 &&& 0x7F)
      ∧ ∃ side, (∀ e ∈ side, ∃ w o, w ≠ Window.iic ∧ e = Event.writel w o 0)
          ∧ (iic_get_irq cpu m).2.trace = m.trace ++
              [Event.in_be64 .iic (cpu * 0x1000 + 0x50) (in_be64 (cpu * 0x1000 + 0x50) m).1,
               Event.out_be64 .iic (cpu * 0x1000 + 0x08) 0x7c,
               Event.mb,
               Event.in_be64 .iic (cpu * 0x1000 + 0x8) 0x7c]
              ++ side ++
              (if m.action ((in_be64 (cpu * 0x1000 + 0x50) m).1 &&& 0x7F) = false then
                [Event.printk .irq_unhandled
                    (((in_be64 (cpu * 0x1000 + 0x50) m).1 &&& 0x7F : Nat) : Int),
                 Event.out_be64 .iic (cpu * 0x1000 + 0x60) 0,
                 Event.out_be64 .iic (cpu * 0x1000 + 0x68) 0,
                 Event.mb,
                 Event.in_be64 .iic (cpu * 0x1000 + 0x8) 0x7c]
               else []) := by
  generalize hr : in_be64 (cpu * 0x1000 + 0x50) m = r
  have hr_tr : r.2.trace = m.trace ++ [Event.in_be64 .iic (cpu * 0x1000 + 0x50) r.1] := by
    rw [← hr]; exact in_be64_trace _ _
  have hr_act : r.2.action = m.action := by rw [← hr]; exact in_be64_action _ _
  -- the state after the re-arm of the task priority, the barrier and the read-back
  obtain ⟨m4, hm4⟩ : ∃ m4, m4 = (in_be64 (cpu * 0x1000 + 0x8)
      (mb (out_be64 (cpu * 0x1000 + 0x08) 0x7c r.2))).2 := ⟨_, rfl⟩
  have h8 : (cpu * 0x1000 + 0x8) % 0x1000 ≠ 0x50 := by omega
  have hm4_tr : m4.trace = r.2.trace ++ [Event.out_be64 .iic (cpu * 0x1000 + 0x08) 0x7c,
      Event.mb, Event.in_be64 .iic (cpu * 0x1000 + 0x8) 0x7c] := by
    rw [hm4, in_be64_trace, in_be64_val _ _ h8]
    simp [mb, out_be64, Machine.emit, Machine.store]
  have hm4_act : m4.action = r.2.action := by rw [hm4, in_be64_action]; rfl
  have hm4_mem : m4.mem .iic (cpu * 0x1000 + 0x8) = 0x7c := by
    rw [hm4, in_be64_mem]
    simp [mb, out_be64, Machine.emit, Machine.store]
  obtain ⟨hact, hmemh, side, htr, hside⟩ := iic_get_irq_hack_spec (r.1 &&& 0x7F) m4
  obtain ⟨m5, hm5⟩ : ∃ m5, m5 = iic_get_irq_hack (r.1 &&& 0x7F) m4 := ⟨_, rfl⟩
  rw [← hm5] at hact hmemh htr
  have hunf : iic_get_irq cpu m =
      if (!m5.action (r.1 &&& 0x7F)) = true then
        (NO_IRQ, iic_eoi cpu (out_be64 (cpu * 0x1000 + 0x60) 0
          (printk .irq_unhandled ((r.1 &&& 0x7F : Nat) : Int) m5)))
      else if r.1 &&& 0x7F = 0x7C then (NO_IRQ, m5)
      else (r.1 &&& 0x7F, m5) := by
    rw [hm5, hm4, ← hr]; rfl
  have hact5 : m5.action = m.action := by rw [hact, hm4_act, hr_act]
  rw [hunf, hact5]
  cases hA : m.action (r.1 &&& 0x7F)
  · refine ⟨by simp, side, hside, ?_⟩
    simp only [Bool.not_false, if_true]
    unfold iic_eoi
    rw [in_be64_trace, in_be64_val _ _ h8]
    simp [mb, out_be64, printk, Machine.emit, Machine.store, htr, hm4_tr, hr_tr, hmemh, hm4_mem]
  · refine ⟨by simp only [Bool.not_true, Bool.false_eq_true, if_false]; split <;> rfl,
      side, hside, ?_⟩
    simp only [Bool.not_true, Bool.false_eq_true, if_false]
    split <;> simp [htr, hm4_tr, hr_tr]

/-- The value read from the pending register of core `cpu`: the oldest latched value,
or `0x7C` when nothing is latched. -/
theorem in_be64_pending_val (cpu : Nat) (m : Machine) :
    (in_be64 (cpu * 0x1000 + 0x50) m).1 = (m.pending cpu).headD 0x7C := by
  have h1 : (cpu * 0x1000 + 0x50) % 0x1000 = 0x50 := by omega
  have h2 : (cpu * 0x1000 + 0x50) / 0x1000 = cpu := by omega
  unfold in_be64
  rw [if_pos h1, h2]
  cases m.pending cpu <;> rfl

/-- C8: with `idx` the low 7 bits of the value read from the pending register, the
result of `iic_get_irq` is a function of `idx` and of whether a handler is registered for
`idx`; it is `NO_IRQ` whenever `idx` is the sentinel `0x7C`, whatever the upper bits of
the raw value and whether or not a handler is registered, and it is `idx` for every
`idx` other than `0x7C` with a registered handler. -/
theorem iic_get_irq_result (cpu : Nat) (m : Machine) (raw : Nat)
    (hraw : (m.pending cpu).headD 0x7C = raw) :
    (iic_get_irq cpu m).1
        = (if m.action (raw &&& 0x7F) = false then NO_IRQ
           else if raw &&& 0x7F = 0x7C then NO_IRQ else raw &&& 0x7F)
      ∧ (raw &&& 0x7F = 0x7C → (iic_get_irq cpu m).1 = NO_IRQ)
      ∧ (raw &&& 0x7F ≠ 0x7C → m.action (raw &&& 0x7F) = true →
          (iic_get_irq cpu m).1 = raw &&& 0x7F) := by
  have h := (iic_get_irq_spec cpu m).1
  rw [in_be64_pending_val, hraw] at h
  refine ⟨h, fun h7 => ?_, fun h7 ha => ?_⟩
  · rw [h, if_pos h7]
    split <;> rfl
  · rw [h, if_neg h7, if_neg (by rw [ha]; decide)]

/-- Core 2 with raw value `0x174` latched and every handler registered decodes the
clock code `0x74`; with raw value `0x17C` latched it reports `NO_IRQ`. -/
theorem iic_get_irq_result_witness :
    (iic_get_irq 2 { Machine.sample with
        pending := fun _ => [0x174], action := fun _ => true }).1 = 0x74
      ∧ (iic_get_irq 2 { Machine.sample with
        pending := fun _ => [0x17C], action := fun _ => true }).1 = NO_IRQ :=
  ⟨(iic_get_irq_result 2 { Machine.sample with
        pending := fun _ => [0x174], action := fun _ => true } 0x174 rfl).2.2
      (by decide) rfl,
    (iic_get_irq_result 2 { Machine.sample with
        pending := fun _ => [0x17C], action := fun _ => true } 0x17C rfl).2.1 (by decide)⟩

/-- C9, on the code: with nothing latched and no handler registered for index `0x7C`,
`iic_get_irq` on core 0 reads the sentinel, then prints the "unhandled" diagnostic for
`0x7C` and writes 0 to offsets `0x60` and `0x68` before returning `NO_IRQ`. -/
theorem iic_get_irq_idle_takes_unhandled_path :
    Machine.sample.pending 0 = [] ∧ Machine.sample.action 0x7C = false
      ∧ (iic_get_irq 0 Machine.sample).1 = NO_IRQ
      ∧ (iic_get_irq 0 Machine.sample).2.trace =
          [Event.in_be64 .iic 0x50 0x7C,
           Event.out_be64 .iic 0x08 0x7c,
           Event.mb,
           Event.in_be64 .iic 0x8 0x7c,
           Event.printk .irq_unhandled 0x7C,
           Event.out_be64 .iic 0x60 0,
           Event.out_be64 .iic 0x68 0,
           Event.mb,
           Event.in_be64 .iic 0x8 0x7c] := by
  decide

/-- C10: when the decoded code `idx` has no registered handler, `iic_get_irq` on core
`cpu` ends with the diagnostic, a write of 0 to offset `0x60` of its own region, a write
of 0 to offset `0x68`, a barrier and a read of offset `0x08`, and returns `NO_IRQ`; these
are its only writes to an offset `0x60` or `0x68`. When `idx` has a registered handler it
writes no register at offset `0x60` or `0x68` of any core. -/
theorem iic_get_irq_unhandled (cpu : Nat) (m : Machine) (raw : Nat)
    (hraw : (m.pending cpu).headD 0x7C = raw) :
    (m.action (raw &&& 0x7F) = false →
        (iic_get_irq cpu m).1 = NO_IRQ
          ∧ ∃ pre, (iic_get_irq cpu m).2.trace = m.trace ++ pre ++
                [Event.printk .irq_unhandled ((raw &&& 0x7F : Nat) : Int),
                 Event.out_be64 .iic (cpu * 0x1000 + 0x60) 0,
                 Event.out_be64 .iic (cpu * 0x1000 + 0x68) 0,
                 Event.mb,
                 Event.in_be64 .iic (cpu * 0x1000 + 0x8) 0x7c]
              ∧ ∀ e ∈ pre, ∀ c v, e ≠ Event.out_be64 .iic (c * 0x1000 + 0x60) v
                  ∧ e ≠ Event.out_be64 .iic (c * 0x1000 + 0x68) v)
      ∧ (m.action (raw &&& 0x7F) = true →
          ∃ evs, (iic_get_irq cpu m).2.trace = m.trace ++ evs
            ∧ ∀ e ∈ evs, ∀ c v, e ≠ Event.out_be64 .iic (c * 0x1000 + 0x60) v
                ∧ e ≠ Event.out_be64 .iic (c * 0x1000 + 0x68) v) := by
  obtain ⟨hres, side, hside, htr⟩ := iic_get_irq_spec cpu m
  rw [in_be64_pending_val, hraw] at hres htr
  have hpre : ∀ e ∈ [Event.in_be64 .iic (cpu * 0x1000 + 0x50) raw,
        Event.out_be64 .iic (cpu * 0x1000 + 0x08) 0x7c, Event.mb,
        Event.in_be64 .iic (cpu * 0x1000 + 0x8) 0x7c] ++ side,
      ∀ c v, e ≠ Event.out_be64 .iic (c * 0x1000 + 0x60) v
        ∧ e ≠ Event.out_be64 .iic (c * 0x1000 + 0x68) v := by
    intro e he c v
    rw [List.mem_append] at he
    rcases he with he | he
    · simp only [List.mem_cons, List.mem_singleton, List.not_mem_nil, or_false] at he
      rcases he with h | h | h | h
      · rw [h]; constructor <;> intro hc <;> cases hc
      · rw [h]
        constructor <;> intro hc <;> rw [Event.out_be64.injEq] at hc <;> omega
      · rw [h]; constructor <;> intro hc <;> cases hc
      · rw [h]; constructor <;> intro hc <;> cases hc
    · obtain ⟨w, o, _, h⟩ := hside e he
      rw [h]; constructor <;> intro hc <;> cases hc
  constructor
  · intro ha
    rw [if_pos ha] at hres htr
    exact ⟨hres, _, by rw [htr, List.append_assoc m.trace], hpre⟩
  · intro ha
    rw [if_neg (by rw [ha]; decide), List.append_nil, List.append_assoc] at htr
    exact ⟨_, htr, hpre⟩

/-- Core 1 with the storage code `0x20` latched: without a handler the poll returns
`NO_IRQ` after the local acknowledge and EOI. -/
theorem iic_get_irq_unhandled_witness :
    (iic_get_irq 1 { Machine.sample with pending := fun _ => [0x20] }).1 = NO_IRQ
      ∧ ∃ pre, (iic_get_irq 1 { Machine.sample with pending := fun _ => [0x20] }).2.trace
          = Machine.sample.trace ++ pre ++
            [Event.printk .irq_unhandled ((0x20 &&& 0x7F : Nat) : Int),
             Event.out_be64 .iic (1 * 0x1000 + 0x60) 0,
             Event.out_be64 .iic (1 * 0x1000 + 0x68) 0,
             Event.mb,
             Event.in_be64 .iic (1 * 0x1000 + 0x8) 0x7c]
        ∧ ∀ e ∈ pre, ∀ c v, e ≠ Event.out_be64 .iic (c * 0x1000 + 0x60) v
            ∧ e ≠ Event.out_be64 .iic (c * 0x1000 + 0x68) v :=
  (iic_get_irq_unhandled 1 { Machine.sample with pending := fun _ => [0x20] } 0x20 rfl).1 rfl

/-! ## The side-channel acknowledgments of `iic_get_irq` -/

/-- The events of the `switch (index)`: two graphics writes for `0x58`, one BIU-window
write for `0x68`, one bridge write for `0x74`, nothing otherwise. -/
theorem iic_get_irq_hack_trace (index : Nat) (m : Machine) :
    (iic_get_irq_hack index m).trace = m.trace ++
      (if index = 0x58 then
        [Event.writel .graphics 0xed0 0, Event.writel .graphics 0x6540 0]
       else if index = 0x68 then [Event.writel .biu 0x4002c 0]
       else if index = 0x74 then [Event.writel .bridge 0x106C 0]
       else []) := by
  have e1 : ((index : Int) = PRIO_GRAPHICS) = (index = 0x58) := by
    unfold PRIO_GRAPHICS; exact propext ⟨fun h => by omega, fun h => by omega⟩
  have e2 : ((index : Int) = PRIO_IOC) = (index = 0x68) := by
    unfold PRIO_IOC; exact propext ⟨fun h => by omega, fun h => by omega⟩
  have e3 : ((index : Int) = PRIO_CLOCK) = (index = 0x74) := by
    unfold PRIO_CLOCK; exact propext ⟨fun h => by omega, fun h => by omega⟩
  unfold iic_get_irq_hack
  simp only [e1, e2, e3]
  split
  · simp [writel, Machine.emit, Machine.store]
  · split
    · simp [writel, Machine.emit, Machine.store]
    · split
      · simp [writel, Machine.emit, Machine.store]
      · simp

/-- The whole trace of `iic_get_irq` on core `cpu`, event by event. -/
theorem iic_get_irq_trace_exact (cpu : Nat) (m : Machine) (raw : Nat)
    (hraw : (m.pending cpu).headD 0x7C = raw) :
    (iic_get_irq cpu m).2.trace = m.trace ++
      ([Event.in_be64 .iic (cpu * 0x1000 + 0x50) raw,
        Event.out_be64 .iic (cpu * 0x1000 + 0x08) 0x7c,
        Event.mb,
        Event.in_be64 .iic (cpu * 0x1000 + 0x8) 0x7c]
       ++ (if raw &&& 0x7F = 0x58 then
            [Event.writel .graphics 0xed0 0, Event.writel .graphics 0x6540 0]
           else if raw &&& 0x7F = 0x68 then [Event.writel .biu 0x4002c 0]
           else if raw &&& 0x7F = 0x74 then [Event.writel .bridge 0x106C 0]
           else [])
       ++ (if m.action (raw &&& 0x7F) = false then
            [Event.printk .irq_unhandled ((raw &&& 0x7F : Nat) : Int),
             Event.out_be64 .iic (cpu * 0x1000 + 0x60) 0,
             Event.out_be64 .iic (cpu * 0x1000 + 0x68) 0,
             Event.mb,
             Event.in_be64 .iic (cpu * 0x1000 + 0x8) 0x7c]
           else [])) := by
  have hv : (in_be64 (cpu * 0x1000 + 0x50) m).1 = raw := by
    have h1 : (cpu * 0x1000 + 0x50) % 0x1000 = 0x50 := by omega
    have h2 : (cpu * 0x1000 + 0x50) / 0x1000 = cpu := by omega
    unfold in_be64
    rw [if_pos h1, h2, ← hraw]
    cases m.pending cpu <;> rfl
  generalize hr : in_be64 (cpu * 0x1000 + 0x50) m = r at hv
  have hr_tr : r.2.trace = m.trace ++ [Event.in_be64 .iic (cpu * 0x1000 + 0x50) r.1] := by
    rw [← hr]; exact in_be64_trace _ _
  have hr_act : r.2.action = m.action := by rw [← hr]; exact in_be64_action _ _
  obtain ⟨m4, hm4⟩ : ∃ m4, m4 = (in_be64 (cpu * 0x1000 + 0x8)
      (mb (out_be64 (cpu * 0x1000 + 0x08) 0x7c r.2))).2 := ⟨_, rfl⟩
  have h8 : (cpu * 0x1000 + 0x8) % 0x1000 ≠ 0x50 := by omega
  have hm4_tr : m4.trace = r.2.trace ++ [Event.out_be64 .iic (cpu * 0x1000 + 0x08) 0x7c,
      Event.mb, Event.in_be64 .iic (cpu * 0x1000 + 0x8) 0x7c] := by
    rw [hm4, in_be64_trace, in_be64_val _ _ h8]
    simp [mb, out_be64, Machine.emit, Machine.store]
  have hm4_act : m4.action = r.2.action := by rw [hm4, in_be64_action]; rfl
  have hm4_mem : m4.mem .iic (cpu * 0x1000 + 0x8) = 0x7c := by
    rw [hm4, in_be64_mem]
    simp [mb, out_be64, Machine.emit, Machine.store]
  obtain ⟨hact, hmemh, -⟩ := iic_get_irq_hack_spec (r.1 &&& 0x7F) m4
  have htr := iic_get_irq_hack_trace (r.1 &&& 0x7F) m4
  obtain ⟨m5, hm5⟩ : ∃ m5, m5 = iic_get_irq_hack (r.1 &&& 0x7F) m4 := ⟨_, rfl⟩
  rw [← hm5] at hact hmemh htr
  have hunf : iic_get_irq cpu m =
      if (!m5.action (r.1 &&& 0x7F)) = true then
        (NO_IRQ, iic_eoi cpu (out_be64 (cpu * 0x1000 + 0x60) 0
          (printk .irq_unhandled ((r.1 &&& 0x7F : Nat) : Int) m5)))
      else if r.1 &&& 0x7F = 0x7C then (NO_IRQ, m5)
      else (r.1 &&& 0x7F, m5) := by
    rw [hm5, hm4, ← hr]; rfl
  have hact5 : m5.action = m.action := by rw [hact, hm4_act, hr_act]
  rw [hunf, hact5]
  rw [hv] at htr hr_tr ⊢
  cases hA : m.action (raw &&& 0x7F)
  · simp only [Bool.not_false, if_true]
    unfold iic_eoi
    rw [in_be64_trace, in_be64_val _ _ h8]
    simp [mb, out_be64, printk, Machine.emit, Machine.store, htr, hm4_tr, hr_tr, hmemh, hm4_mem]
  · simp only [Bool.not_true, Bool.false_eq_true, if_false]
    split <;> simp [htr, hm4_tr, hr_tr]

/-- C11, as the code has it: `iic_get_irq` writes a side-channel acknowledgment for
exactly three decoded codes: `PRIO_GRAPHICS` (0x58, two graphics registers), `PRIO_IOC`
(0x68, one register of the BIU window) and `PRIO_CLOCK` (0x74, one bridge register); for
every other decoded code, `PRIO_BIU` (0x64) included, it writes no graphics, BIU or
bridge register. -/
theorem iic_get_irq_side_channel (cpu : Nat) (m : Machine) (raw : Nat)
    (hraw : (m.pending cpu).headD 0x7C = raw) :
    (∃ evs, (iic_get_irq cpu m).2.trace = m.trace ++ evs
        ∧ evs.filter Event.isPeripheralWrite =
            (if raw &&& 0x7F = 0x58 then
              [Event.writel .graphics 0xed0 0, Event.writel .graphics 0x6540 0]
             else if raw &&& 0x7F = 0x68 then [Event.writel .biu 0x4002c 0]
             else if raw &&& 0x7F = 0x74 then [Event.writel .bridge 0x106C 0]
             else []))
      ∧ PRIO_GRAPHICS = 0x58 ∧ PRIO_IOC = 0x68 ∧ PRIO_CLOCK = 0x74 ∧ PRIO_BIU = 0x64 := by
  refine ⟨⟨_, iic_get_irq_trace_exact cpu m raw hraw, ?_⟩, rfl, rfl, rfl, rfl⟩
  have htail : ∀ x : Int, (if m.action (raw &&& 0x7F) = false then
        [Event.printk .irq_unhandled x,
         Event.out_be64 .iic (cpu * 0x1000 + 0x60) 0,
         Event.out_be64 .iic (cpu * 0x1000 + 0x68) 0,
         Event.mb,
         Event.in_be64 .iic (cpu * 0x1000 + 0x8) 0x7c]
       else []).filter Event.isPeripheralWrite = [] := by
    intro x
    split <;> simp [Event.isPeripheralWrite]
  rw [List.filter_append, List.filter_append, htail]
  split
  · simp [Event.isPeripheralWrite]
  · split
    · simp [Event.isPeripheralWrite]
    · split
      · simp [Event.isPeripheralWrite]
      · simp [Event.isPeripheralWrite]

/-- Core 0 with the code `0x68` latched: the one peripheral write goes to the BIU
window. -/
theorem iic_get_irq_side_channel_witness :
    ∃ evs, (iic_get_irq 0 { Machine.sample with pending := fun _ => [0x68] }).2.trace
        = Machine.sample.trace ++ evs
      ∧ evs.filter Event.isPeripheralWrite =
          (if 0x68 &&& 0x7F = 0x58 then
            [Event.writel .graphics 0xed0 0, Event.writel .graphics 0x6540 0]
           else if 0x68 &&& 0x7F = 0x68 then [Event.writel .biu 0x4002c 0]
           else if 0x68 &&& 0x7F = 0x74 then [Event.writel .bridge 0x106C 0]
           else []) :=
  (iic_get_irq_side_channel 0 { Machine.sample with pending := fun _ => [0x68] } 0x68 rfl).1

/-- C11, as stated, fails: with `PRIO_BIU` (0x64) decoded no peripheral register is
written, and with `0x68` decoded, which is not one of the three codes of the claim, a
register of the BIU window is written. -/
theorem iic_get_irq_side_channel_counterexample :
    PRIO_BIU = 0x64
      ∧ (iic_get_irq 0 { Machine.sample with pending := fun _ => [0x64] }).2.trace.filter
          Event.isPeripheralWrite = []
      ∧ (iic_get_irq 0 { Machine.sample with pending := fun _ => [0x68] }).2.trace.filter
          Event.isPeripheralWrite = [Event.writel .biu 0x4002c 0] := by
  decide

/-! ## Chip operations: mask, unmask, end of interrupt -/

theorem u32_to_int_small (x : Nat) (h : x < 2 ^ 31) : u32_to_int x = (x : Int) := by
  unfold u32_to_int
  have h1 : x % 2 ^ 32 = x := Nat.mod_eq_of_lt (by omega)
  rw [h1, if_pos h]

/-- The loop of `iic_unmask` appends one write of 0 per core, in order. -/
theorem unmask_fold_trace (l : List Nat) :
    ∀ m : Machine, (l.foldl iic_unmask_step m).trace = m.trace ++
      l.map (fun i => Event.out_be64 .iic (i * 0x1000 + 0x68) 0) := by
  induction l with
  | nil => intro m; simp
  | cons i l ih =>
    intro m
    rw [List.foldl_cons, ih]
    simp [iic_unmask_step, out_be64, Machine.emit, Machine.store]

/-- The loop of `iic_unmask` sets the registers at offset `0x68` of the cores of `l` to 0
and leaves every other register as it was. -/
theorem unmask_fold_mem (l : List Nat) :
    ∀ (m : Machine) (w : Window) (o : Nat), (l.foldl iic_unmask_step m).mem w o =
      if w = Window.iic ∧ ∃ i ∈ l, o = i * 0x1000 + 0x68 then 0 else m.mem w o := by
  induction l with
  | nil => intro m w o; simp
  | cons i l ih =>
    intro m w o
    rw [List.foldl_cons, ih]
    by_cases h1 : w = Window.iic ∧ ∃ j ∈ l, o = j * 0x1000 + 0x68
    · rw [if_pos h1, if_pos ⟨h1.1, by
        obtain ⟨j, hj, e⟩ := h1.2
        exact ⟨j, List.mem_cons_of_mem i hj, e⟩⟩]
    · rw [if_neg h1]
      by_cases h2 : w = Window.iic ∧ o = i * 0x1000 + 0x68
      · rw [if_pos ⟨h2.1, i, List.mem_cons_self i l, h2.2⟩]
        simp [iic_unmask_step, out_be64, Machine.emit, Machine.store, h2.1, h2.2]
      · have h3 : ¬ (w = Window.iic ∧ ∃ j ∈ i :: l, o = j * 0x1000 + 0x68) := by
          rintro ⟨hw, j, hj, e⟩
          rcases List.mem_cons.mp hj with hji | hjl
          · exact h2 ⟨hw, by rw [e, hji]⟩
          · exact h1 ⟨hw, j, hjl, e⟩
        rw [if_neg h3]
        show (if w = Window.iic ∧ o = i * 0x1000 + 0x68 then _ else m.mem w o) = _
        rw [if_neg h2]

/-- C12: `iic_mask` is `disconnect_pci_irq` of the interrupt number: its events are the
diagnostic and bridge writes only, and no controller register changes. `iic_unmask` is
`connect_pci_irq` followed by six writes of 0, to offset `0x68` of the regions of cores
0..5 (stride `0x1000`), whether or not a slot matches. -/
theorem iic_mask_unmask (m : Machine) (irq : Nat) :
    (irq < 2 ^ 31 → u32_to_int irq = (irq : Int))
      ∧ iic_mask irq m = disconnect_pci_irq (u32_to_int irq) m
      ∧ (∃ evs, (iic_mask irq m).trace = m.trace ++ evs
          ∧ ∀ e ∈ evs, e = Event.printk .disconnect_irq (u32_to_int irq)
              ∨ ∃ o v, e = Event.writel .bridge o v)
      ∧ (∀ o, (iic_mask irq m).mem .iic o = m.mem .iic o)
      ∧ (iic_unmask irq m).trace = (connect_pci_irq (u32_to_int irq) m).trace ++
          [Event.out_be64 .iic (0 * 0x1000 + 0x68) 0, Event.out_be64 .iic (1 * 0x1000 + 0x68) 0,
           Event.out_be64 .iic (2 * 0x1000 + 0x68) 0, Event.out_be64 .iic (3 * 0x1000 + 0x68) 0,
           Event.out_be64 .iic (4 * 0x1000 + 0x68) 0, Event.out_be64 .iic (5 * 0x1000 + 0x68) 0]
      ∧ (∀ i, i < 6 → (iic_unmask irq m).mem .iic (i * 0x1000 + 0x68) = 0)
      ∧ (∀ w o, w ≠ Window.iic →
          (iic_unmask irq m).mem w o = (connect_pci_irq (u32_to_int irq) m).mem w o) := by
  refine ⟨u32_to_int_small irq, rfl, ?_, ?_, ?_, ?_, ?_⟩
  · refine ⟨Event.printk .disconnect_irq (u32_to_int irq) ::
        ((List.range 0x10).filter (fun i => decide (pci_irq_map_at i = u32_to_int irq))).map
          (fun i => Event.writel .bridge (0x10 + i * 4) ((fun _ => 0) i % 2 ^ 32)), ?_, ?_⟩
    · unfold iic_mask disconnect_pci_irq
      rw [scan_trace (disconnect_step _) (fun _ => 0) _ (disconnect_step_eq _)]
      simp [printk, Machine.emit]
    · intro e he
      rcases List.mem_cons.mp he with h | h
      · exact Or.inl h
      · obtain ⟨i, _, hi⟩ := List.mem_map.mp h
        exact Or.inr ⟨_, _, hi.symm⟩
  · intro o
    unfold iic_mask disconnect_pci_irq
    rw [scan_mem_frame (disconnect_step _) (fun _ => 0) _ (disconnect_step_eq _) Window.iic o]
    · rfl
    · intro i _ _ h
      exact absurd h.1 (by decide)
  · unfold iic_unmask
    rw [unmask_fold_trace]
    rfl
  · intro i hi
    unfold iic_unmask
    rw [unmask_fold_mem, if_pos ⟨rfl, i, List.mem_range.mpr hi, rfl⟩]
  · intro w o hw
    unfold iic_unmask
    rw [unmask_fold_mem, if_neg (fun h => hw h.1)]

/-- The graphics code `0x58`, which no slot maps to: unmasking still clears offset
`0x68` of core 5. -/
theorem iic_mask_unmask_witness :
    u32_to_int 0x58 = 0x58
      ∧ (iic_unmask 0x58 Machine.sample).mem .iic (5 * 0x1000 + 0x68) = 0 :=
  ⟨(iic_mask_unmask Machine.sample 0x58).1 (by decide),
    (iic_mask_unmask Machine.sample 0x58).2.2.2.2.2.1 5 (by decide)⟩

/-- C13: `iic_eoi` on core `c` performs, in this order, a write of 0 to offset `0x68` of
the region of core `c`, a barrier, and a read of offset `0x08` of the same region, and
nothing else: the only register that changes is the one written, and no pending
register is consumed. -/
theorem iic_eoi_spec (c : Nat) (m : Machine) :
    (iic_eoi c m).trace = m.trace ++
        [Event.out_be64 .iic (c * 0x1000 + 0x68) 0,
         Event.mb,
         Event.in_be64 .iic (c * 0x1000 + 0x8) (m.mem .iic (c * 0x1000 + 0x8))]
      ∧ (c * 0x1000 ≤ c * 0x1000 + 0x68 ∧ c * 0x1000 + 0x68 < (c + 1) * 0x1000)
      ∧ (c * 0x1000 ≤ c * 0x1000 + 0x8 ∧ c * 0x1000 + 0x8 < (c + 1) * 0x1000)
      ∧ (iic_eoi c m).mem .iic (c * 0x1000 + 0x68) = 0
      ∧ (∀ w o, ¬ (w = Window.iic ∧ o = c * 0x1000 + 0x68) →
          (iic_eoi c m).mem w o = m.mem w o)
      ∧ (iic_eoi c m).pending = m.pending := by
  have h8 : (c * 0x1000 + 0x8) % 0x1000 ≠ 0x50 := by omega
  have hne : ¬ (c * 0x1000 + 0x8 = c * 0x1000 + 0x68) := by omega
  have hun : iic_eoi c m = (in_be64 (c * 0x1000 + 0x8) (mb (out_be64 (c * 0x1000 + 0x68) 0 m))).2 :=
    rfl
  have hp : (in_be64 (c * 0x1000 + 0x8) (mb (out_be64 (c * 0x1000 + 0x68) 0 m))).2.pending
      = m.pending := by
    unfold in_be64
    rw [if_neg h8]
    rfl
  refine ⟨?_, ⟨by omega, by omega⟩, ⟨by omega, by omega⟩, ?_, ?_, ?_⟩
  · rw [hun, in_be64_trace, in_be64_val _ _ h8]
    simp [mb, out_be64, Machine.emit, Machine.store, hne]
  · rw [hun, in_be64_mem]
    simp [mb, out_be64, Machine.emit, Machine.store]
  · intro w o h
    rw [hun, in_be64_mem]
    show (if w = Window.iic ∧ o = c * 0x1000 + 0x68 then _ else m.mem w o) = _
    rw [if_neg h]
  · rw [hun, hp]

/-! ## Core bring-up: `xenon_init_irq_on_cpu` -/

/-- A read of the pending register of core `cpu` consumes the oldest latched value of
that core and nothing else. -/
theorem in_be64_pending_rest (cpu : Nat) (m : Machine) :
    (in_be64 (cpu * 0x1000 + 0x50) m).2.pending cpu = (m.pending cpu).tail
      ∧ ∀ c, c ≠ cpu → (in_be64 (cpu * 0x1000 + 0x50) m).2.pending c = m.pending c := by
  have h1 : (cpu * 0x1000 + 0x50) % 0x1000 = 0x50 := by omega
  have h2 : (cpu * 0x1000 + 0x50) / 0x1000 = cpu := by omega
  unfold in_be64
  rw [if_pos h1, h2]
  cases hp : m.pending cpu with
  | nil => exact ⟨hp, fun c _ => rfl⟩
  | cons v rest =>
    refine ⟨?_, fun c hc => ?_⟩
    · show (if cpu = cpu then rest else m.pending cpu) = _
      rw [if_pos rfl]; rfl
    · show (if c = cpu then rest else m.pending c) = _
      rw [if_neg hc]

theorem in_be64_virq_of (off : Nat) (m : Machine) : (in_be64 off m).2.virq_of = m.virq_of := by
  unfold in_be64
  split
  · split <;> rfl
  · rfl

/-- The drain loop returns as soon as the bound exceeds the number of latched values, with
a result that does not depend on the bound: it has read the latched values before the
first `0x7C` (or all of them) and then one `0x7C`. -/
theorem drain_pending_spec (cpu : Nat) :
    ∀ (n : Nat) (m : Machine), (m.pending cpu).length ≤ n →
      ∃ m1, (∀ fuel, n < fuel → drain_pending cpu fuel m = some m1)
        ∧ m1.mem = m.mem ∧ m1.action = m.action ∧ m1.virq_of = m.virq_of
        ∧ m1.trace = m.trace ++
            ((m.pending cpu).takeWhile (fun v => decide (v ≠ 0x7C)) ++ [0x7C]).map
              (fun v => Event.in_be64 .iic (cpu * 0x1000 + 0x50) v)
        ∧ m1.pending cpu = ((m.pending cpu).dropWhile (fun v => decide (v ≠ 0x7C))).tail
        ∧ ∀ c, c ≠ cpu → m1.pending c = m.pending c := by
  intro n
  induction n with
  | zero =>
    intro m hlen
    have hnil : m.pending cpu = [] := List.length_eq_zero.mp (Nat.le_zero.mp hlen)
    have hv : (in_be64 (cpu * 0x1000 + 0x50) m).1 = 0x7C := by
      rw [in_be64_pending_val, hnil]; rfl
    refine ⟨(in_be64 (cpu * 0x1000 + 0x50) m).2, ?_, in_be64_mem _ _, in_be64_action _ _,
      in_be64_virq_of _ _, ?_, ?_, (in_be64_pending_rest cpu m).2⟩
    · intro fuel hf
      obtain ⟨f, rfl⟩ : ∃ f, fuel = f + 1 := ⟨fuel - 1, by omega⟩
      show (if (in_be64 (cpu * 0x1000 + 0x50) m).1 ≠ 0x7C then _ else _) = _
      rw [if_neg (by rw [hv]; exact fun h => h rfl)]
    · rw [in_be64_trace, hv, hnil]; rfl
    · rw [(in_be64_pending_rest cpu m).1, hnil]; rfl
  | succ n ih =>
    intro m hlen
    by_cases hv : (in_be64 (cpu * 0x1000 + 0x50) m).1 = 0x7C
    · have hhead : (m.pending cpu).headD 0x7C = 0x7C := by rw [← in_be64_pending_val]; exact hv
      have htw : (m.pending cpu).takeWhile (fun v => decide (v ≠ 0x7C)) = []
          ∧ (m.pending cpu).dropWhile (fun v => decide (v ≠ 0x7C)) = m.pending cpu := by
        cases hp : m.pending cpu with
        | nil => exact ⟨rfl, rfl⟩
        | cons v rest =>
          rw [hp] at hhead
          have hv2 : v = 0x7C := hhead
          subst hv2
          exact ⟨by simp, by simp⟩
      refine ⟨(in_be64 (cpu * 0x1000 + 0x50) m).2, ?_, in_be64_mem _ _, in_be64_action _ _,
        in_be64_virq_of _ _, ?_, ?_, (in_be64_pending_rest cpu m).2⟩
      · intro fuel hf
        obtain ⟨f, rfl⟩ : ∃ f, fuel = f + 1 := ⟨fuel - 1, by omega⟩
        show (if (in_be64 (cpu * 0x1000 + 0x50) m).1 ≠ 0x7C then _ else _) = _
        rw [if_neg (by rw [hv]; exact fun h => h rfl)]
      · rw [in_be64_trace, hv, htw.1]; rfl
      · rw [(in_be64_pending_rest cpu m).1, htw.2]
    · obtain ⟨v, rest, hp⟩ : ∃ v rest, m.pending cpu = v :: rest := by
        cases hp : m.pending cpu with
        | nil => exact absurd (by rw [in_be64_pending_val, hp]; rfl) hv
        | cons v rest => exact ⟨v, rest, rfl⟩
      have hval : (in_be64 (cpu * 0x1000 + 0x50) m).1 = v := by
        rw [in_be64_pending_val, hp]; rfl
      have hvne : v ≠ 0x7C := by rw [← hval]; exact hv
      have hrest : (in_be64 (cpu * 0x1000 + 0x50) m).2.pending cpu = rest := by
        rw [(in_be64_pending_rest cpu m).1, hp]; rfl
      have hlen2 : ((in_be64 (cpu * 0x1000 + 0x50) m).2.pending cpu).length ≤ n := by
        rw [hrest]; rw [hp] at hlen; simpa using hlen
      obtain ⟨m1, hrun, hmem, hact, hvirq, htr, hpend, hoth⟩ :=
        ih (in_be64 (cpu * 0x1000 + 0x50) m).2 hlen2
      refine ⟨m1, ?_, hmem.trans (in_be64_mem _ _), hact.trans (in_be64_action _ _),
        hvirq.trans (in_be64_virq_of _ _), ?_, ?_, ?_⟩
      · intro fuel hf
        obtain ⟨f, rfl⟩ : ∃ f, fuel = f + 1 := ⟨fuel - 1, by omega⟩
        show (if (in_be64 (cpu * 0x1000 + 0x50) m).1 ≠ 0x7C then _ else _) = _
        rw [if_pos hv]
        exact hrun f (by omega)
      · rw [htr, in_be64_trace, hval, hrest, hp]
        simp [hvne]
      · rw [hpend, hrest, hp]
        simp [hvne]
      · intro c hc
        rw [hoth c hc, (in_be64_pending_rest cpu m).2 c hc]

/-- What `xenon_init_irq_on_cpu` does on core `cpu`: it returns for every bound above the
number of latched values, always in the same state, whose trace, registers and pending
queues are as follows. -/
theorem xenon_init_irq_on_cpu_run (cpu : Nat) (m : Machine) :
    ∃ m1, (∀ fuel, (m.pending cpu).length < fuel →
          xenon_init_irq_on_cpu fuel cpu m = some m1)
      ∧ m1.trace = m.trace ++
          ([Event.printk .init_on_cpu (cpu : Int),
            Event.out_be64 .iic (cpu * 0x1000 + 0x70) 0x7c,
            Event.out_be64 .iic (cpu * 0x1000 + 0x8) 0,
            Event.out_be64 .iic (cpu * 0x1000) ((1 <<< cpu) % 2 ^ 64)]
           ++ ((m.pending cpu).takeWhile (fun v => decide (v ≠ 0x7C)) ++ [0x7C]).map
                (fun v => Event.in_be64 .iic (cpu * 0x1000 + 0x50) v)
           ++ [Event.out_be64 .iic (cpu * 0x1000 + 0x68) 0])
      ∧ (∀ w o, m1.mem w o =
          if w = Window.iic ∧ o = cpu * 0x1000 + 0x68 then 0
          else if w = Window.iic ∧ o = cpu * 0x1000 then (1 <<< cpu) % 2 ^ 64
          else if w = Window.iic ∧ o = cpu * 0x1000 + 0x8 then 0
          else if w = Window.iic ∧ o = cpu * 0x1000 + 0x70 then 0x7c
          else m.mem w o)
      ∧ m1.action = m.action
      ∧ m1.pending cpu = ((m.pending cpu).dropWhile (fun v => decide (v ≠ 0x7C))).tail
      ∧ ∀ c, c ≠ cpu → m1.pending c = m.pending c := by
  obtain ⟨m0, hm0⟩ : ∃ m0, m0 = out_be64 (cpu * 0x1000) (1 <<< cpu)
      (out_be64 (cpu * 0x1000 + 0x8) 0
        (out_be64 (cpu * 0x1000 + 0x70) 0x7c (printk .init_on_cpu (cpu : Int) m))) := ⟨_, rfl⟩
  have hp0 : m0.pending = m.pending := by rw [hm0]; rfl
  have ha0 : m0.action = m.action := by rw [hm0]; rfl
  obtain ⟨m1, hrun, hmem, hact, -, htr, hpend, hoth⟩ :=
    drain_pending_spec cpu (m0.pending cpu).length m0 (Nat.le_refl _)
  refine ⟨out_be64 (cpu * 0x1000 + 0x68) 0 m1, ?_, ?_, ?_, ?_, ?_, ?_⟩
  · intro fuel hf
    have h := hrun fuel (by rw [hp0]; exact hf)
    rw [hm0] at h
    unfold xenon_init_irq_on_cpu
    simp only [h]
  · show m1.trace ++ [Event.out_be64 .iic (cpu * 0x1000 + 0x68) (0 % 2 ^ 64)] = _
    rw [htr, hp0, hm0]
    simp [out_be64, printk, Machine.emit, Machine.store]
  · intro w o
    show (if w = Window.iic ∧ o = cpu * 0x1000 + 0x68 then 0 % 2 ^ 64 else m1.mem w o) = _
    rw [hmem, hm0]
    simp [out_be64, printk, Machine.emit, Machine.store]
  · show m1.action = _
    rw [hact, ha0]
  · show m1.pending cpu = _
    rw [hpend, hp0]
  · intro c hc
    show m1.pending c = _
    rw [hoth c hc, hp0]

/-- C14, as the code has it: `xenon_init_irq_on_cpu` on core `c` writes `0x7C` to the
register at offset `0x70` of the region of core `c`, 0 to the register at offset `0x08`
(the register that `iic_get_irq` re-arms and `iic_eoi` reads back) and `1 << c` to
offset 0, in this order; when it returns, offset `0x70` holds `0x7C`, offset `0x08`
holds 0 and offset 0 holds `1 << c`. -/
theorem xenon_init_irq_on_cpu_registers (c : Nat) (m : Machine) (fuel : Nat) (hc : c < 6)
    (hfuel : (m.pending c).length < fuel) :
    ∃ m1 rest, xenon_init_irq_on_cpu fuel c m = some m1
      ∧ m1.trace = m.trace ++
          [Event.printk .init_on_cpu (c : Int),
           Event.out_be64 .iic (c * 0x1000 + 0x70) 0x7c,
           Event.out_be64 .iic (c * 0x1000 + 0x8) 0,
           Event.out_be64 .iic (c * 0x1000) (1 <<< c)] ++ rest
      ∧ m1.mem .iic (c * 0x1000 + 0x70) = 0x7C
      ∧ m1.mem .iic (c * 0x1000 + 0x8) = 0
      ∧ m1.mem .iic (c * 0x1000) = 1 <<< c := by
  obtain ⟨m1, hrun, htr, hmem, -, -, -⟩ := xenon_init_irq_on_cpu_run c m
  have hw : (1 <<< c) % 2 ^ 64 = 1 <<< c := by
    interval_cases c <;> rfl
  rw [hw] at htr hmem
  refine ⟨m1, ((m.pending c).takeWhile (fun v => decide (v ≠ 0x7C)) ++ [0x7C]).map
      (fun v => Event.in_be64 .iic (c * 0x1000 + 0x50) v)
      ++ [Event.out_be64 .iic (c * 0x1000 + 0x68) 0], hrun fuel hfuel, ?_, ?_, ?_, ?_⟩
  · rw [htr]; simp only [List.append_assoc]
  · rw [hmem, if_neg (by omega), if_neg (by omega), if_neg (by omega), if_pos ⟨rfl, rfl⟩]
  · rw [hmem, if_neg (by omega), if_neg (by omega), if_pos ⟨rfl, rfl⟩]
  · rw [hmem, if_neg (by omega), if_pos ⟨rfl, rfl⟩]

/-- Core 3 of the sample machine, with nothing latched and a bound of one read. -/
theorem xenon_init_irq_on_cpu_registers_witness :
    (3 < 6 ∧ (Machine.sample.pending 3).length < 1)
      ∧ ∃ m1 rest, xenon_init_irq_on_cpu 1 3 Machine.sample = some m1
        ∧ m1.trace = Machine.sample.trace ++
            [Event.printk .init_on_cpu ((3 : Nat) : Int),
             Event.out_be64 .iic (3 * 0x1000 + 0x70) 0x7c,
             Event.out_be64 .iic (3 * 0x1000 + 0x8) 0,
             Event.out_be64 .iic (3 * 0x1000) (1 <<< 3)] ++ rest
        ∧ m1.mem .iic (3 * 0x1000 + 0x70) = 0x7C
        ∧ m1.mem .iic (3 * 0x1000 + 0x8) = 0
        ∧ m1.mem .iic (3 * 0x1000) = 1 <<< 3 :=
  ⟨by decide, xenon_init_irq_on_cpu_registers 3 Machine.sample 1 (by decide) (by decide)⟩

/-- C14, as stated, fails: after `xenon_init_irq_on_cpu` on core 0 the register at offset
`0x08`, which is the one `iic_get_irq` re-arms with `0x7C`, holds 0; the value `0x7C`
went to offset `0x70`. -/
theorem xenon_init_irq_on_cpu_counterexample :
    (xenon_init_irq_on_cpu 1 0 Machine.sample).map
        (fun m => (m.mem .iic 0x08, m.mem .iic 0x70, m.trace))
      = some (0, 0x7C,
          [Event.printk .init_on_cpu 0,
           Event.out_be64 .iic 0x70 0x7c,
           Event.out_be64 .iic 0x8 0,
           Event.out_be64 .iic 0 1,
           Event.in_be64 .iic 0x50 0x7C,
           Event.out_be64 .iic 0x68 0])
      ∧ (iic_get_irq 0 Machine.sample).2.trace.take 2
          = [Event.in_be64 .iic 0x50 0x7C, Event.out_be64 .iic 0x08 0x7c] := by
  decide

/-- C15: with the codes latched on core `c` all different from the sentinel,
`xenon_init_irq_on_cpu` returns for every bound above their number; it has read every
latched code and then the sentinel `0x7C`, its write of 0 to offset `0x68` comes last,
right after the read of the sentinel, nothing is left latched, and an `iic_get_irq` on
core `c` right afterwards reads `0x7C` and returns `NO_IRQ`. -/
theorem xenon_init_irq_on_cpu_drains (c : Nat) (m : Machine)
    (hcodes : ∀ v ∈ m.pending c, v ≠ 0x7C) :
    ∃ m1, (∀ fuel, (m.pending c).length < fuel → xenon_init_irq_on_cpu fuel c m = some m1)
      ∧ m1.pending c = []
      ∧ m1.trace = m.trace ++
          ([Event.printk .init_on_cpu (c : Int),
            Event.out_be64 .iic (c * 0x1000 + 0x70) 0x7c,
            Event.out_be64 .iic (c * 0x1000 + 0x8) 0,
            Event.out_be64 .iic (c * 0x1000) ((1 <<< c) % 2 ^ 64)]
           ++ (m.pending c).map (fun v => Event.in_be64 .iic (c * 0x1000 + 0x50) v)
           ++ [Event.in_be64 .iic (c * 0x1000 + 0x50) 0x7C,
               Event.out_be64 .iic (c * 0x1000 + 0x68) 0])
      ∧ (in_be64 (c * 0x1000 + 0x50) m1).1 = 0x7C
      ∧ (iic_get_irq c m1).1 = NO_IRQ := by
  obtain ⟨m1, hrun, htr, -, -, hpend, -⟩ := xenon_init_irq_on_cpu_run c m
  have htw : (m.pending c).takeWhile (fun v => decide (v ≠ 0x7C)) = m.pending c := by
    rw [List.takeWhile_eq_self_iff]
    intro v hv
    simpa using hcodes v hv
  have hdw : (m.pending c).dropWhile (fun v => decide (v ≠ 0x7C)) = [] := by
    rw [List.dropWhile_eq_nil_iff]
    intro v hv
    simpa using hcodes v hv
  rw [htw] at htr
  rw [hdw] at hpend
  have hread : (in_be64 (c * 0x1000 + 0x50) m1).1 = 0x7C := by
    rw [in_be64_pending_val, hpend]; rfl
  refine ⟨m1, hrun, hpend, ?_, hread, ?_⟩
  · rw [htr]; simp
  · have h := (iic_get_irq_spec c m1).1
    rw [hread] at h
    rw [h]
    split
    · rfl
    · rw [if_pos (by decide)]

/-- Core 1 with the codes `0x20` and `0x74` latched, and a bound of three reads. -/
theorem xenon_init_irq_on_cpu_drains_witness :
    (∀ v ∈ ({ Machine.sample with pending := fun _ => [0x20, 0x74] } : Machine).pending 1,
        v ≠ 0x7C)
      ∧ ∃ m1, xenon_init_irq_on_cpu 3 1 { Machine.sample with pending := fun _ => [0x20, 0x74] }
          = some m1 ∧ m1.pending 1 = [] ∧ (iic_get_irq 1 m1).1 = NO_IRQ :=
  ⟨by decide,
    (xenon_init_irq_on_cpu_drains 1 { Machine.sample with pending := fun _ => [0x20, 0x74] }
      (by decide)).imp fun _ h => ⟨h.1 3 (by decide), h.2.1, h.2.2.2.2⟩⟩

/-! ## Repeated polling -/

/-- A poll on core `cpu` consumes exactly what its one read of the pending register
consumes, and leaves the handler table alone. -/
theorem iic_get_irq_state (cpu : Nat) (m : Machine) :
    (iic_get_irq cpu m).2.pending = (in_be64 (cpu * 0x1000 + 0x50) m).2.pending
      ∧ (iic_get_irq cpu m).2.action = m.action := by
  have h8 : (cpu * 0x1000 + 0x8) % 0x1000 ≠ 0x50 := by omega
  have hin : ∀ m0 : Machine, (in_be64 (cpu * 0x1000 + 0x8) m0).2.pending = m0.pending := by
    intro m0
    unfold in_be64
    rw [if_neg h8]
    rfl
  have hh : ∀ (i : Nat) (m0 : Machine), (iic_get_irq_hack i m0).pending = m0.pending
      ∧ (iic_get_irq_hack i m0).action = m0.action := by
    intro i m0
    unfold iic_get_irq_hack
    split_ifs <;> exact ⟨rfl, rfl⟩
  unfold iic_get_irq iic_eoi
  dsimp only
  split_ifs <;>
    simp [hin, (hh _ _).1, (hh _ _).2, in_be64_action, out_be64, mb, printk, Machine.emit,
      Machine.store]

/-- Repeated polling after one unhandled assertion: with exactly one value latched on
core `c` whose code `idx` is not the sentinel and has no registered handler, the first
`iic_get_irq` consumes it and returns `NO_IRQ`; every further `iic_get_irq` finds nothing
latched, reads `0x7C` and returns `NO_IRQ`, and the diagnostic for `idx` is in the trace
exactly once more than before. When no handler is registered for `0x7C` each further
poll nevertheless repeats the writes to offsets `0x60` and `0x68`. -/
theorem iic_get_irq_reports_once (c : Nat) (m : Machine) (v : Nat)
    (hpend : m.pending c = [v]) (hidx : v &&& 0x7F ≠ 0x7C)
    (hact : m.action (v &&& 0x7F) = false) :
    (iic_get_irq c m).1 = NO_IRQ
      ∧ (iic_get_irq c m).2.pending c = []
      ∧ ∀ n : Nat,
          (Nat.iterate (fun s => (iic_get_irq c s).2) n (iic_get_irq c m).2).pending c = []
            ∧ (in_be64 (c * 0x1000 + 0x50)
                (Nat.iterate (fun s => (iic_get_irq c s).2) n (iic_get_irq c m).2)).1 = 0x7C
            ∧ (iic_get_irq c
                (Nat.iterate (fun s => (iic_get_irq c s).2) n (iic_get_irq c m).2)).1 = NO_IRQ
            ∧ (iic_get_irq c
                (Nat.iterate (fun s => (iic_get_irq c s).2) n (iic_get_irq c m).2)).2.trace
                = (Nat.iterate (fun s => (iic_get_irq c s).2) n (iic_get_irq c m).2).trace ++
                  ([Event.in_be64 .iic (c * 0x1000 + 0x50) 0x7C,
                    Event.out_be64 .iic (c * 0x1000 + 0x08) 0x7c,
                    Event.mb,
                    Event.in_be64 .iic (c * 0x1000 + 0x8) 0x7c]
                   ++ (if m.action 0x7C = false then
                        [Event.printk .irq_unhandled 0x7C,
                         Event.out_be64 .iic (c * 0x1000 + 0x60) 0,
                         Event.out_be64 .iic (c * 0x1000 + 0x68) 0,
                         Event.mb,
                         Event.in_be64 .iic (c * 0x1000 + 0x8) 0x7c]
                       else []))
            ∧ List.count (Event.printk .irq_unhandled ((v &&& 0x7F : Nat) : Int))
                (iic_get_irq c
                  (Nat.iterate (fun s => (iic_get_irq c s).2) n (iic_get_irq c m).2)).2.trace
              = List.count (Event.printk .irq_unhandled ((v &&& 0x7F : Nat) : Int)) m.trace
                + 1 := by
  have h7 : (0x7C : Nat) &&& 0x7F = 0x7C := by decide
  have hne : Event.printk .irq_unhandled 0x7C
      ≠ Event.printk .irq_unhandled ((v &&& 0x7F : Nat) : Int) := by
    intro h
    rw [Event.printk.injEq] at h
    exact hidx (by omega)
  -- the first poll
  have hraw : (m.pending c).headD 0x7C = v := by rw [hpend]; rfl
  have hres1 : (iic_get_irq c m).1 = NO_IRQ := by
    have h := (iic_get_irq_spec c m).1
    rw [in_be64_pending_val, hraw, if_pos hact] at h
    exact h
  have hp1 : (iic_get_irq c m).2.pending c = [] := by
    rw [(iic_get_irq_state c m).1, (in_be64_pending_rest c m).1, hpend]; rfl
  have hcount1 : List.count (Event.printk .irq_unhandled ((v &&& 0x7F : Nat) : Int))
      (iic_get_irq c m).2.trace
      = List.count (Event.printk .irq_unhandled ((v &&& 0x7F : Nat) : Int)) m.trace + 1 := by
    rw [iic_get_irq_trace_exact c m v hraw, if_pos hact]
    simp only [List.count_append]
    have hside : List.count (Event.printk .irq_unhandled ((v &&& 0x7F : Nat) : Int))
        (if v &&& 0x7F = 0x58 then
          [Event.writel .graphics 0xed0 0, Event.writel .graphics 0x6540 0]
         else if v &&& 0x7F = 0x68 then [Event.writel .biu 0x4002c 0]
         else if v &&& 0x7F = 0x74 then [Event.writel .bridge 0x106C 0]
         else []) = 0 := by
      split_ifs <;> simp [List.count_cons]
    rw [hside]
    simp [List.count_cons]
  -- a poll with nothing latched
  have hidle : ∀ s : Machine, s.pending c = [] → s.action = m.action →
      (iic_get_irq c s).2.pending c = []
        ∧ (iic_get_irq c s).2.action = m.action
        ∧ (in_be64 (c * 0x1000 + 0x50) s).1 = 0x7C
        ∧ (iic_get_irq c s).1 = NO_IRQ
        ∧ (iic_get_irq c s).2.trace = s.trace ++
            ([Event.in_be64 .iic (c * 0x1000 + 0x50) 0x7C,
              Event.out_be64 .iic (c * 0x1000 + 0x08) 0x7c,
              Event.mb,
              Event.in_be64 .iic (c * 0x1000 + 0x8) 0x7c]
             ++ (if m.action 0x7C = false then
                  [Event.printk .irq_unhandled 0x7C,
                   Event.out_be64 .iic (c * 0x1000 + 0x60) 0,
                   Event.out_be64 .iic (c * 0x1000 + 0x68) 0,
                   Event.mb,
                   Event.in_be64 .iic (c * 0x1000 + 0x8) 0x7c]
                 else []))
        ∧ List.count (Event.printk .irq_unhandled ((v &&& 0x7F : Nat) : Int))
            (iic_get_irq c s).2.trace
          = List.count (Event.printk .irq_unhandled ((v &&& 0x7F : Nat) : Int)) s.trace := by
    intro s hs ha
    have hraw0 : (s.pending c).headD 0x7C = 0x7C := by rw [hs]; rfl
    have hread : (in_be64 (c * 0x1000 + 0x50) s).1 = 0x7C := by
      rw [in_be64_pending_val, hraw0]
    have htr := iic_get_irq_trace_exact c s 0x7C hraw0
    rw [h7, ha] at htr
    simp only [show ¬ ((0x7C : Nat) = 0x58) by decide, show ¬ ((0x7C : Nat) = 0x68) by decide,
      show ¬ ((0x7C : Nat) = 0x74) by decide, if_false, List.append_nil] at htr
    refine ⟨?_, ?_, hread, ?_, ?_, ?_⟩
    · rw [(iic_get_irq_state c s).1, (in_be64_pending_rest c s).1, hs]; rfl
    · rw [(iic_get_irq_state c s).2, ha]
    · have h := (iic_get_irq_spec c s).1
      rw [hread, h7] at h
      rw [h]
      split
      · rfl
      · rw [if_pos rfl]
    · rw [htr]
      simp
    · rw [htr]
      simp only [List.count_append]
      split_ifs <;> simp [List.count_cons, hne]
  have hinv : ∀ n : Nat,
      (Nat.iterate (fun s => (iic_get_irq c s).2) n (iic_get_irq c m).2).pending c = []
        ∧ (Nat.iterate (fun s => (iic_get_irq c s).2) n (iic_get_irq c m).2).action = m.action
        ∧ List.count (Event.printk .irq_unhandled ((v &&& 0x7F : Nat) : Int))
            (Nat.iterate (fun s => (iic_get_irq c s).2) n (iic_get_irq c m).2).trace
          = List.count (Event.printk .irq_unhandled ((v &&& 0x7F : Nat) : Int)) m.trace + 1 := by
    intro n
    induction n with
    | zero => exact ⟨hp1, (iic_get_irq_state c m).2, hcount1⟩
    | succ n ih =>
      rw [Function.iterate_succ_apply']
      obtain ⟨a, b, -, -, -, e⟩ := hidle _ ih.1 ih.2.1
      exact ⟨a, b, e.trans ih.2.2⟩
  refine ⟨hres1, hp1, fun n => ?_⟩
  obtain ⟨hp, ha, hc⟩ := hinv n
  obtain ⟨-, -, hread, hres, htr, hcnt⟩ := hidle _ hp ha
  exact ⟨hp, hread, hres, htr, hcnt.trans hc⟩

/-- Core 0 with the storage code `0x20` latched and no handler: first poll and the
third poll after it. -/
theorem iic_get_irq_reports_once_witness :
    (({ Machine.sample with pending := fun _ => [0x20] } : Machine).pending 0 = [0x20]
        ∧ 0x20 &&& 0x7F ≠ 0x7C
        ∧ ({ Machine.sample with pending := fun _ => [0x20] } : Machine).action (0x20 &&& 0x7F)
            = false)
      ∧ (iic_get_irq 0 { Machine.sample with pending := fun _ => [0x20] }).1 = NO_IRQ
      ∧ (iic_get_irq 0
          (Nat.iterate (fun s => (iic_get_irq 0 s).2) 2
            (iic_get_irq 0 { Machine.sample with pending := fun _ => [0x20] }).2)).1 = NO_IRQ :=
  ⟨⟨rfl, by decide, rfl⟩,
    (iic_get_irq_reports_once 0 { Machine.sample with pending := fun _ => [0x20] } 0x20 rfl
      (by decide) rfl).1,
    ((iic_get_irq_reports_once 0 { Machine.sample with pending := fun _ => [0x20] } 0x20 rfl
      (by decide) rfl).2.2 2).2.2.1⟩

/-- C16, on the code: core 0 with the storage code `0x20` latched once and no handler
registered for any index. The first `iic_get_irq` reports `0x20` as unhandled,
acknowledges and ends it; each of the three further polls, with nothing latched, reads
`0x7C` and again writes 0 to the acknowledge register (offset `0x60`) and to the EOI
register (offset `0x68`): after four polls the trace holds one diagnostic for `0x20`,
three for `0x7C`, four acknowledge writes and four EOI writes. -/
theorem iic_get_irq_idle_polls_repeat_eoi :
    ({ Machine.sample with pending := fun _ => [0x20] } : Machine).pending 0 = [0x20]
      ∧ (iic_get_irq 0 { Machine.sample with pending := fun _ => [0x20] }).1 = NO_IRQ
      ∧ (iic_get_irq 0
          (iic_get_irq 0 { Machine.sample with pending := fun _ => [0x20] }).2).2.trace.drop 9
          = [Event.in_be64 .iic 0x50 0x7C,
             Event.out_be64 .iic 0x08 0x7c,
             Event.mb,
             Event.in_be64 .iic 0x8 0x7c,
             Event.printk .irq_unhandled 0x7C,
             Event.out_be64 .iic 0x60 0,
             Event.out_be64 .iic 0x68 0,
             Event.mb,
             Event.in_be64 .iic 0x8 0x7c]
      ∧ List.count (Event.printk .irq_unhandled 0x20)
          (Nat.iterate (fun s => (iic_get_irq 0 s).2) 4
            { Machine.sample with pending := fun _ => [0x20] }).trace = 1
      ∧ List.count (Event.printk .irq_unhandled 0x7C)
          (Nat.iterate (fun s => (iic_get_irq 0 s).2) 4
            { Machine.sample with pending := fun _ => [0x20] }).trace = 3
      ∧ List.count (Event.out_be64 .iic 0x60 0)
          (Nat.iterate (fun s => (iic_get_irq 0 s).2) 4
            { Machine.sample with pending := fun _ => [0x20] }).trace = 4
      ∧ List.count (Event.out_be64 .iic 0x68 0)
          (Nat.iterate (fun s => (iic_get_irq 0 s).2) 4
            { Machine.sample with pending := fun _ => [0x20] }).trace = 4 := by
  decide

/-! ## Controller initialisation: `xenon_iic_init_IRQ` -/

/-- When every compatible node resolves and a domain is obtained, the search loop runs to
its end and only records mappings and registrations: no register is written. -/
theorem find_controller_resolves (nodes : List DtNode) :
    ∀ m : Machine, (∀ dn ∈ nodes, dn.compatible = true → dn.resource.isSome = true) →
      ∃ evs, find_controller true nodes m = .ok true { m with trace := m.trace ++ evs }
        ∧ ∀ e ∈ evs, e.isWrite = false := by
  induction nodes with
  | nil =>
    intro m _
    exact ⟨[], by simp [find_controller], by simp⟩
  | cons dn rest ih =>
    intro m h
    have hrest : ∀ d ∈ rest, d.compatible = true → d.resource.isSome = true :=
      fun d hd => h d (List.mem_cons_of_mem dn hd)
    cases hc : dn.compatible with
    | false =>
      obtain ⟨evs, he, hw⟩ := ih m hrest
      exact ⟨evs, by simp [find_controller, hc, he], hw⟩
    | true =>
      have hsome := h dn (List.mem_cons_self dn rest) hc
      obtain ⟨start, hstart⟩ := Option.isSome_iff_exists.mp hsome
      obtain ⟨evs, he, hw⟩ := ih (((m.emit (.ioremap_nocache .iic start 0x10000)).emit
        .irq_domain_add_nomap).emit .irq_set_default_host) hrest
      refine ⟨[Event.ioremap_nocache .iic start 0x10000, Event.irq_domain_add_nomap,
        Event.irq_set_default_host] ++ evs, ?_, ?_⟩
      · simp [Machine.emit] at he
        simp [find_controller, hc, hstart, he, Machine.emit]
      · intro e hmem
        rcases List.mem_append.mp hmem with h1 | h1
        · simp only [List.mem_cons, List.mem_singleton, List.not_mem_nil, or_false] at h1
          rcases h1 with h2 | h2 | h2 <;> rw [h2] <;> rfl
        · exact hw e h1

/-- The loop that disconnects all PCI IRQs appends one write of 0 per slot, in order. -/
theorem init_fold_trace (l : List Nat) :
    ∀ m : Machine, (l.foldl init_disconnect_step m).trace = m.trace ++
      l.map (fun i => Event.writel .bridge (0x10 + i * 4) 0) := by
  induction l with
  | nil => intro m; simp
  | cons i l ih =>
    intro m
    rw [List.foldl_cons, ih]
    simp [init_disconnect_step, writel, Machine.emit, Machine.store]

/-- The loop that disconnects all PCI IRQs sets the routing registers of the slots of `l`
to 0 and leaves every other register as it was. -/
theorem init_fold_mem (l : List Nat) :
    ∀ (m : Machine) (w : Window) (o : Nat), (l.foldl init_disconnect_step m).mem w o =
      if w = Window.bridge ∧ ∃ i ∈ l, o = 0x10 + i * 4 then 0 else m.mem w o := by
  induction l with
  | nil => intro m w o; simp
  | cons i l ih =>
    intro m w o
    rw [List.foldl_cons, ih]
    by_cases h1 : w = Window.bridge ∧ ∃ j ∈ l, o = 0x10 + j * 4
    · rw [if_pos h1, if_pos ⟨h1.1, by
        obtain ⟨j, hj, e⟩ := h1.2
        exact ⟨j, List.mem_cons_of_mem i hj, e⟩⟩]
    · rw [if_neg h1]
      by_cases h2 : w = Window.bridge ∧ o = 0x10 + i * 4
      · rw [if_pos ⟨h2.1, i, List.mem_cons_self i l, h2.2⟩]
        simp [init_disconnect_step, writel, Machine.emit, Machine.store, h2.1, h2.2]
      · have h3 : ¬ (w = Window.bridge ∧ ∃ j ∈ i :: l, o = 0x10 + j * 4) := by
          rintro ⟨hw, j, hj, e⟩
          rcases List.mem_cons.mp hj with hji | hjl
          · exact h2 ⟨hw, by rw [e, hji]⟩
          · exact h1 ⟨hw, j, hjl, e⟩
        rw [if_neg h3]
        show (if w = Window.bridge ∧ o = 0x10 + i * 4 then _ else m.mem w o) = _
        rw [if_neg h2]

theorem init_fold_pending (l : List Nat) :
    ∀ m : Machine, (l.foldl init_disconnect_step m).pending = m.pending := by
  induction l with
  | nil => intro m; rfl
  | cons i l ih => intro m; rw [List.foldl_cons, ih]; rfl

/-- The part of `xenon_iic_init_IRQ` between the search loop and the bring-up of core 0:
its events, none of which writes a routing register before the final loop, and the
routing registers after it. -/
theorem iic_init_bridge_spec (m : Machine) :
    (iic_init_bridge m).trace = m.trace ++
        [Event.set_get_irq,
         Event.ioremap_nocache .bridge 0xea000000 0x10000,
         Event.ioremap_nocache .biu 0xe1000000 0x2000000,
         Event.ioremap_nocache .graphics 0xec800000 0x10000,
         Event.writel .bridge 0 0,
         Event.writel .bridge 4 0x40000000,
         Event.writel .biu 0x40074 0x40000000,
         Event.writel .biu 0x40078 0xea000050,
         Event.writel .bridge 0xc 0,
         Event.writel .bridge 0 0x3]
        ++ (List.range 0x10).map (fun i => Event.writel .bridge (0x10 + i * 4) 0)
      ∧ (∀ s, s < 0x10 → (iic_init_bridge m).mem .bridge (0x10 + 4 * s) = 0)
      ∧ (iic_init_bridge m).pending = m.pending := by
  refine ⟨?_, ?_, ?_⟩
  · unfold iic_init_bridge
    simp only [init_fold_trace]
    simp [writel, Machine.emit, Machine.store]
  · intro s hs
    unfold iic_init_bridge
    dsimp only
    rw [init_fold_mem, if_pos ⟨rfl, s, List.mem_range.mpr hs, by omega⟩]
  · unfold iic_init_bridge
    simp only [init_fold_pending]
    rfl

/-- C17: when every compatible controller node resolves (and the interrupt domain is
obtained), `xenon_iic_init_IRQ` returns for every bound above the number of values
latched on core 0; it writes 0 to the 16 routing registers (bridge offsets `0x10` to
`0x4C`), having written none of them before, then runs `xenon_init_irq_on_cpu(0)`, which
writes no bridge register: all 16 routing registers hold 0 at the end and none was ever
set to a non-zero value. -/
theorem xenon_iic_init_IRQ_disables_lines (nodes : List DtNode) (m : Machine) (fuel : Nat)
    (hres : ∀ dn ∈ nodes, dn.compatible = true → dn.resource.isSome = true)
    (hfuel : (m.pending 0).length < fuel) :
    ∃ mid m1 pre post, xenon_iic_init_IRQ fuel nodes true m = some (.ok () m1)
      ∧ mid.trace = m.trace ++ pre ++
          (List.range 0x10).map (fun i => Event.writel .bridge (0x10 + i * 4) 0)
      ∧ (∀ e ∈ pre, ∀ s v, s < 0x10 → e ≠ Event.writel .bridge (0x10 + 4 * s) v)
      ∧ (∀ s, s < 0x10 → mid.mem .bridge (0x10 + 4 * s) = 0)
      ∧ xenon_init_irq_on_cpu fuel 0 mid = some m1
      ∧ m1.trace = mid.trace ++ post
      ∧ (∀ e ∈ post, ∀ o v, e ≠ Event.writel .bridge o v)
      ∧ (∀ s, s < 0x10 → m1.mem .bridge (0x10 + 4 * s) = 0) := by
  obtain ⟨evs, he, hw⟩ := find_controller_resolves nodes (printk .iic_init 0 m) hres
  obtain ⟨m0, hm0⟩ : ∃ m0 : Machine,
      m0 = { printk .iic_init 0 m with trace := (printk .iic_init 0 m).trace ++ evs } :=
    ⟨_, rfl⟩
  rw [← hm0] at he
  obtain ⟨htr, hmem, hpend⟩ := iic_init_bridge_spec m0
  have hp0 : (iic_init_bridge m0).pending 0 = m.pending 0 := by rw [hpend, hm0]; rfl
  obtain ⟨m1, hrun, htr1, hmem1, -, -, -⟩ := xenon_init_irq_on_cpu_run 0 (iic_init_bridge m0)
  have hrun1 := hrun fuel (by rw [hp0]; exact hfuel)
  refine ⟨iic_init_bridge m0, m1,
    [Event.printk .iic_init 0] ++ evs ++
      [Event.set_get_irq,
       Event.ioremap_nocache .bridge 0xea000000 0x10000,
       Event.ioremap_nocache .biu 0xe1000000 0x2000000,
       Event.ioremap_nocache .graphics 0xec800000 0x10000,
       Event.writel .bridge 0 0,
       Event.writel .bridge 4 0x40000000,
       Event.writel .biu 0x40074 0x40000000,
       Event.writel .biu 0x40078 0xea000050,
       Event.writel .bridge 0xc 0,
       Event.writel .bridge 0 0x3], _, ?_, ?_, ?_, hmem, hrun1, htr1, ?_, ?_⟩
  · unfold xenon_iic_init_IRQ
    rw [he]
    simp only [hrun1]
  · rw [htr, hm0]
    simp [printk, Machine.emit]
  · intro e hmem2 s v hs
    rcases List.mem_append.mp hmem2 with h1 | h1
    · rcases List.mem_append.mp h1 with h2 | h2
      · rw [List.mem_singleton] at h2
        rw [h2]; intro h; cases h
      · intro h
        have := hw e h2
        rw [h] at this
        cases this
    · simp only [List.mem_cons, List.mem_singleton, List.not_mem_nil, or_false] at h1
      rcases h1 with h | h | h | h | h | h | h | h | h | h <;> rw [h] <;>
        first
          | (intro hc; rw [Event.writel.injEq] at hc; omega)
          | (intro hc; cases hc)
  · intro e hmem2 o v
    simp only [List.mem_append, List.mem_cons, List.mem_singleton, List.mem_map,
      List.not_mem_nil, or_false] at hmem2
    rcases hmem2 with (((h | h | h | h) | ⟨a, _, h⟩) | h)
    · rw [h]; intro hc; cases hc
    · rw [h]; intro hc; cases hc
    · rw [h]; intro hc; cases hc
    · rw [h]; intro hc; cases hc
    · rw [← h]; intro hc; cases hc
    · rw [h]; intro hc; cases hc
  · intro s hs
    rw [hmem1, if_neg (fun h => absurd h.1 (by decide)), if_neg (fun h => absurd h.1 (by decide)),
      if_neg (fun h => absurd h.1 (by decide)), if_neg (fun h => absurd h.1 (by decide))]
    exact hmem s hs

/-- A device tree with one foreign node and one compatible node that resolves, on the
sample machine with a bound of one read. -/
theorem xenon_iic_init_IRQ_disables_lines_witness :
    ((∀ dn ∈ [DtNode.mk false none, DtNode.mk true (some 0x20000050000)],
          dn.compatible = true → dn.resource.isSome = true)
        ∧ (Machine.sample.pending 0).length < 1)
      ∧ ∃ m1, xenon_iic_init_IRQ 1 [DtNode.mk false none, DtNode.mk true (some 0x20000050000)]
            true Machine.sample = some (.ok () m1)
          ∧ ∀ s, s < 0x10 → m1.mem .bridge (0x10 + 4 * s) = 0 :=
  ⟨⟨by decide, by decide⟩,
    (xenon_iic_init_IRQ_disables_lines
        [DtNode.mk false none, DtNode.mk true (some 0x20000050000)] Machine.sample 1
        (by decide) (by decide)).elim
      fun _ h => h.elim fun m1 h => h.elim fun _ h => h.elim fun _ h =>
        ⟨m1, h.1, h.2.2.2.2.2.2.2⟩⟩

/-- C18, on the code: with no "interrupt-controller" node at all, `xenon_iic_init_IRQ`
does not stop: it installs the `get_irq` hook, writes the bridge and BIU registers and
runs `xenon_init_irq_on_cpu(0)`. Only when a compatible node fails to resolve does it
return at once, with nothing but the two diagnostics in the trace. -/
theorem xenon_iic_init_IRQ_without_node :
    (xenon_iic_init_IRQ 1 [] true Machine.sample).map (fun r => (r.isBug, r.machine.trace))
      = some (false,
          [Event.printk .iic_init 0,
           Event.set_get_irq,
           Event.ioremap_nocache .bridge 0xea000000 0x10000,
           Event.ioremap_nocache .biu 0xe1000000 0x2000000,
           Event.ioremap_nocache .graphics 0xec800000 0x10000,
           Event.writel .bridge 0 0,
           Event.writel .bridge 4 0x40000000,
           Event.writel .biu 0x40074 0x40000000,
           Event.writel .biu 0x40078 0xea000050,
           Event.writel .bridge 0xc 0,
           Event.writel .bridge 0 0x3]
          ++ (List.range 0x10).map (fun i => Event.writel .bridge (0x10 + i * 4) 0)
          ++ [Event.printk .init_on_cpu 0,
              Event.out_be64 .iic 0x70 0x7c,
              Event.out_be64 .iic 0x8 0,
              Event.out_be64 .iic 0 1,
              Event.in_be64 .iic 0x50 0x7C,
              Event.out_be64 .iic 0x68 0])
      ∧ (xenon_iic_init_IRQ 1 [DtNode.mk true none] true Machine.sample).map
          (fun r => (r.isBug, r.machine.trace))
        = some (false, [Event.printk .iic_init 0, Event.printk .cant_resolve 0,
            Event.of_node_put]) := by
  decide

/-! ## Requesting and passing IPIs -/

/-- Whether `ipi_to_prio` recognises a kind, and with which code, does not depend on the
machine state. -/
theorem ipi_to_prio_any (k p : Int) (m : Machine) (hk : ipi_to_prio k m = .ok p m)
    (m1 : Machine) : ipi_to_prio k m1 = .ok p m1 := by
  rcases ipi_to_prio_cases k m with ⟨a, e⟩ | ⟨a, e⟩ | ⟨a, e⟩ | ⟨a, e⟩ | ⟨_, e⟩ <;>
    rw [e] at hk
  · rw [Outcome.ok.injEq] at hk; rw [← hk.1, a]; rfl
  · rw [Outcome.ok.injEq] at hk; rw [← hk.1, a]; rfl
  · rw [Outcome.ok.injEq] at hk; rw [← hk.1, a]; rfl
  · rw [Outcome.ok.injEq] at hk; rw [← hk.1, a]; rfl
  · cases hk

/-- C19: for a recognised kind `k` with priority code `p`, `xenon_request_ipi` returns
normally; it asks `irq_create_mapping` for exactly `p`; when the answer is `NO_IRQ` it
only prints the failure diagnostic and registers nothing, and otherwise it calls
`smp_request_message_ipi` once, with the returned virtual interrupt and `k`. No register
is touched. -/
theorem xenon_request_ipi_spec (m : Machine) (k p : Int) (hk : ipi_to_prio k m = .ok p m) :
    (xenon_request_ipi k m).isBug = false
      ∧ (xenon_request_ipi k m).machine.trace = m.trace ++
          (Event.irq_create_mapping p (m.virq_of p) ::
            (if m.virq_of p = NO_IRQ then [Event.printk .request_ipi_failed p]
             else [Event.smp_request_message_ipi (m.virq_of p) k]))
      ∧ (xenon_request_ipi k m).machine.mem = m.mem := by
  unfold xenon_request_ipi
  rw [hk]
  dsimp only
  split <;> simp [Outcome.isBug, Outcome.machine, printk, Machine.emit]

/-- The reschedule kind: once with a failing mapping (the sample machine), once with a
mapping to virtual interrupt 21. -/
theorem xenon_request_ipi_spec_witness :
    ipi_to_prio PPC_MSG_RESCHEDULE Machine.sample = .ok 0x10 Machine.sample
      ∧ (xenon_request_ipi PPC_MSG_RESCHEDULE Machine.sample).machine.trace
          = Machine.sample.trace ++
            (Event.irq_create_mapping 0x10 (Machine.sample.virq_of 0x10) ::
              (if Machine.sample.virq_of 0x10 = NO_IRQ then
                [Event.printk .request_ipi_failed 0x10]
               else [Event.smp_request_message_ipi (Machine.sample.virq_of 0x10)
                  PPC_MSG_RESCHEDULE]))
      ∧ (xenon_request_ipi PPC_MSG_RESCHEDULE
            { Machine.sample with virq_of := fun _ => 21 }).machine.trace
          = [Event.irq_create_mapping 0x10 21,
             Event.smp_request_message_ipi 21 PPC_MSG_RESCHEDULE] :=
  ⟨rfl, (xenon_request_ipi_spec Machine.sample PPC_MSG_RESCHEDULE 0x10 rfl).2.1,
    (xenon_request_ipi_spec { Machine.sample with virq_of := fun _ => 21 }
      PPC_MSG_RESCHEDULE 0x10 rfl).2.1⟩

/-- The broadcast loop for a recognised kind: one trigger write per target, in order. -/
theorem message_pass_loop_trace (cpu : Nat) (k p : Int) (l : List Nat) :
    ∀ m : Machine, ipi_to_prio k m = .ok p m →
      (message_pass_loop cpu k l m).isBug = false
        ∧ (message_pass_loop cpu k l m).machine.trace = m.trace ++
            l.map (fun i => Event.out_be64 .iic (0x10 + cpu * 0x1000) (ipi_word i p % 2 ^ 64)) := by
  induction l with
  | nil => intro m _; exact ⟨rfl, by simp [message_pass_loop, Outcome.machine]⟩
  | cons i l ih =>
    intro m hk
    have h1 := xenon_cause_IPI_ok m cpu i k p hk
    obtain ⟨hb, ht⟩ := ih (out_be64 (0x10 + cpu * 0x1000) (ipi_word i p) m)
      (ipi_to_prio_any k p m hk _)
    unfold message_pass_loop
    rw [h1]
    dsimp only
    refine ⟨hb, ?_⟩
    rw [ht]
    simp [out_be64, Machine.emit, Machine.store]

/-- C20: for a recognised kind, `smp_xenon_message_pass` with a target below `NR_CPUS` is
one `xenon_cause_IPI` to that target: one trigger write; with any other target it makes
one trigger write for each online core below `NR_CPUS`, in increasing order, each core
once, the sending core included when it is online, and none for an offline core. -/
theorem smp_xenon_message_pass_sends (NR_CPUS : Nat) (online : Nat → Bool) (cpu t : Nat)
    (k p : Int) (m : Machine) (hk : ipi_to_prio k m = .ok p m) :
    (t < NR_CPUS →
        smp_xenon_message_pass NR_CPUS online cpu t k m = xenon_cause_IPI cpu t k m
          ∧ (smp_xenon_message_pass NR_CPUS online cpu t k m).machine.trace = m.trace ++
              [Event.out_be64 .iic (0x10 + cpu * 0x1000) (ipi_word t p % 2 ^ 64)])
      ∧ (¬ t < NR_CPUS →
          (smp_xenon_message_pass NR_CPUS online cpu t k m).isBug = false
            ∧ (smp_xenon_message_pass NR_CPUS online cpu t k m).machine.trace = m.trace ++
                ((List.range NR_CPUS).filter online).map
                  (fun i => Event.out_be64 .iic (0x10 + cpu * 0x1000) (ipi_word i p % 2 ^ 64)))
      ∧ ((List.range NR_CPUS).filter online).Nodup
      ∧ (∀ i, i ∈ (List.range NR_CPUS).filter online ↔ (i < NR_CPUS ∧ online i = true)) := by
  refine ⟨fun ht => ?_, fun ht => ?_, (List.nodup_range NR_CPUS).filter _, fun i => ?_⟩
  · have e : smp_xenon_message_pass NR_CPUS online cpu t k m = xenon_cause_IPI cpu t k m := by
      unfold smp_xenon_message_pass
      rw [if_pos ht]
    refine ⟨e, ?_⟩
    rw [e, xenon_cause_IPI_ok m cpu t k p hk]
    rfl
  · unfold smp_xenon_message_pass
    rw [if_neg ht]
    exact message_pass_loop_trace cpu k p _ m hk
  · rw [List.mem_filter, List.mem_range]

/-- Six cores with the even ones online, core 2 sending a reschedule: to core 3 alone,
and as a broadcast (target 7), which reaches cores 0, 2 and 4. -/
theorem smp_xenon_message_pass_sends_witness :
    (ipi_to_prio PPC_MSG_RESCHEDULE Machine.sample = .ok 0x10 Machine.sample
        ∧ 3 < 6 ∧ ¬ 7 < 6)
      ∧ (smp_xenon_message_pass 6 (fun i => i % 2 == 0) 2 3 PPC_MSG_RESCHEDULE
            Machine.sample).machine.trace
          = Machine.sample.trace ++
            [Event.out_be64 .iic (0x10 + 2 * 0x1000) (ipi_word 3 0x10 % 2 ^ 64)]
      ∧ (smp_xenon_message_pass 6 (fun i => i % 2 == 0) 2 7 PPC_MSG_RESCHEDULE
            Machine.sample).machine.trace
          = Machine.sample.trace ++
            ((List.range 6).filter (fun i => i % 2 == 0)).map
              (fun i => Event.out_be64 .iic (0x10 + 2 * 0x1000) (ipi_word i 0x10 % 2 ^ 64)) :=
  ⟨⟨rfl, by decide, by decide⟩,
    ((smp_xenon_message_pass_sends 6 (fun i => i % 2 == 0) 2 3 PPC_MSG_RESCHEDULE 0x10
      Machine.sample rfl).1 (by decide)).2,
    ((smp_xenon_message_pass_sends 6 (fun i => i % 2 == 0) 2 7 PPC_MSG_RESCHEDULE 0x10
      Machine.sample rfl).2.1 (by decide)).2⟩

/-! ## Repeated and cross-core operations -/

/-- After a scan for `prio`, a register either belongs to a slot mapped to `prio` and
holds the word of that slot, or is as it was. -/
theorem scan_mem_cases (step : Machine → Nat → Machine) (v : Nat → Nat) (prio : Int)
    (hstep : ∀ m i, step m i =
      if pci_irq_map_at i = prio then writel (v i) .bridge (0x10 + i * 4) m else m)
    (w : Window) (o : Nat) :
    (∃ s, s < 0x10 ∧ pci_irq_map_at s = prio ∧ w = Window.bridge ∧ o = 0x10 + s * 4
        ∧ ∀ m0 : Machine, ((List.range 0x10).foldl step m0).mem w o = v s % 2 ^ 32)
      ∨ ((∀ s, s < 0x10 → pci_irq_map_at s = prio → ¬ (w = Window.bridge ∧ o = 0x10 + s * 4))
        ∧ ∀ m0 : Machine, ((List.range 0x10).foldl step m0).mem w o = m0.mem w o) := by
  by_cases h : ∃ s, s < 0x10 ∧ pci_irq_map_at s = prio ∧ w = Window.bridge ∧ o = 0x10 + s * 4
  · obtain ⟨s, hs, hp, hw, ho⟩ := h
    refine Or.inl ⟨s, hs, hp, hw, ho, fun m0 => ?_⟩
    rw [hw, ho]
    exact scan_mem_slot step v prio hstep s hp (List.range 0x10) m0 (List.nodup_range 0x10)
      (List.mem_range.mpr hs)
  · have h2 : ∀ s, s < 0x10 → pci_irq_map_at s = prio →
        ¬ (w = Window.bridge ∧ o = 0x10 + s * 4) :=
      fun s hs hp hc => h ⟨s, hs, hp, hc.1, hc.2⟩
    exact Or.inr ⟨h2, fun m0 => scan_mem_frame step v prio hstep w o (List.range 0x10) m0
      (fun i hi hp => h2 i (List.mem_range.mp hi) hp)⟩

/-- C21: `connect_pci_irq p` twice leaves the registers as `connect_pci_irq p` once does,
and so for `disconnect_pci_irq`; and the word left in the register of a slot mapped to
`p` is the same from any two prior states: the routing word of the slot after a
connect, 0 after a disconnect. -/
theorem connect_disconnect_idempotent (m m2 : Machine) (p : Int) :
    (connect_pci_irq p (connect_pci_irq p m)).mem = (connect_pci_irq p m).mem
      ∧ (disconnect_pci_irq p (disconnect_pci_irq p m)).mem = (disconnect_pci_irq p m).mem
      ∧ (∀ s, s < 0x10 → pci_irq_map_at s = p →
          (connect_pci_irq p m).mem .bridge (0x10 + 4 * s) = connect_value s
            ∧ (connect_pci_irq p m2).mem .bridge (0x10 + 4 * s) = connect_value s
            ∧ (disconnect_pci_irq p m).mem .bridge (0x10 + 4 * s) = 0
            ∧ (disconnect_pci_irq p m2).mem .bridge (0x10 + 4 * s) = 0) := by
  have hval : ∀ s, connect_value s % 2 ^ 32 = connect_value s := by
    intro s
    apply Nat.mod_eq_of_lt
    unfold connect_value toU32
    omega
  refine ⟨?_, ?_, ?_⟩
  · funext w o
    unfold connect_pci_irq
    rcases scan_mem_cases (connect_step p) connect_value p (connect_step_eq p) w o with
      ⟨s, _, _, _, _, h⟩ | ⟨_, h⟩
    · rw [h, h]
    · rw [h]; rfl
  · funext w o
    unfold disconnect_pci_irq
    rcases scan_mem_cases (disconnect_step p) (fun _ => 0) p (disconnect_step_eq p) w o with
      ⟨s, _, _, _, _, h⟩ | ⟨_, h⟩
    · rw [h, h]
    · rw [h]; rfl
  · intro s hs hp
    have hc : ∀ m0 : Machine, (connect_pci_irq p m0).mem .bridge (0x10 + 4 * s)
        = connect_value s := by
      intro m0
      unfold connect_pci_irq
      rw [Nat.mul_comm 4 s, scan_mem_slot (connect_step p) connect_value p (connect_step_eq p)
        s hp (List.range 0x10) _ (List.nodup_range 0x10) (List.mem_range.mpr hs), hval]
    have hd : ∀ m0 : Machine, (disconnect_pci_irq p m0).mem .bridge (0x10 + 4 * s) = 0 := by
      intro m0
      unfold disconnect_pci_irq
      rw [Nat.mul_comm 4 s, scan_mem_slot (disconnect_step p) (fun _ => 0) p
        (disconnect_step_eq p) s hp (List.range 0x10) _ (List.nodup_range 0x10)
        (List.mem_range.mpr hs)]
      rfl
    exact ⟨hc m, hc m2, hd m, hd m2⟩

/-- Slot 2 (the hard-disk line, code `0x20`), from the sample machine and from a machine
whose registers all hold 0. -/
theorem connect_disconnect_idempotent_witness :
    (2 < 0x10 ∧ pci_irq_map_at 2 = 0x20)
      ∧ (connect_pci_irq 0x20 Machine.sample).mem .bridge (0x10 + 4 * 2) = connect_value 2
      ∧ (connect_pci_irq 0x20 { Machine.sample with mem := fun _ _ => 0 }).mem .bridge
          (0x10 + 4 * 2) = connect_value 2
      ∧ (disconnect_pci_irq 0x20 Machine.sample).mem .bridge (0x10 + 4 * 2) = 0
      ∧ (disconnect_pci_irq 0x20 { Machine.sample with mem := fun _ _ => 0 }).mem .bridge
          (0x10 + 4 * 2) = 0 :=
  ⟨by decide,
    (connect_disconnect_idempotent Machine.sample { Machine.sample with mem := fun _ _ => 0 }
      0x20).2.2 2 (by decide) (by decide)⟩

/-- C22, as the code has it: `iic_get_irq`, `iic_eoi`, `xenon_cause_IPI` and
`xenon_init_irq_on_cpu` on core `a` write no controller register outside the region of
core `a`, and `iic_mask` writes no controller register at all; `iic_unmask` is the
exception: after its connect it writes 0 to offset `0x68` of the regions of all six
cores, whichever core runs it. -/
theorem controller_ops_own_region (a : Nat) (m : Machine) :
    (∃ evs, (iic_get_irq a m).2.trace = m.trace ++ evs
        ∧ ∀ e ∈ evs, e.writesOtherCore a = false)
      ∧ (∃ evs, (iic_eoi a m).trace = m.trace ++ evs
          ∧ ∀ e ∈ evs, e.writesOtherCore a = false)
      ∧ (∀ t k, ∃ evs, (xenon_cause_IPI a t k m).machine.trace = m.trace ++ evs
          ∧ ∀ e ∈ evs, e.writesOtherCore a = false)
      ∧ (∃ m1 evs, (∀ fuel, (m.pending a).length < fuel →
            xenon_init_irq_on_cpu fuel a m = some m1)
          ∧ m1.trace = m.trace ++ evs ∧ ∀ e ∈ evs, e.writesOtherCore a = false)
      ∧ (∀ irq, ∃ evs, (iic_mask irq m).trace = m.trace ++ evs
          ∧ ∀ e ∈ evs, ∀ b, e.writesOtherCore b = false)
      ∧ (∀ irq, ∃ evs, (connect_pci_irq (u32_to_int irq) m).trace = m.trace ++ evs
          ∧ (∀ e ∈ evs, ∀ b, e.writesOtherCore b = false)
          ∧ (iic_unmask irq m).trace = m.trace ++ evs ++
              [Event.out_be64 .iic (0 * 0x1000 + 0x68) 0,
               Event.out_be64 .iic (1 * 0x1000 + 0x68) 0,
               Event.out_be64 .iic (2 * 0x1000 + 0x68) 0,
               Event.out_be64 .iic (3 * 0x1000 + 0x68) 0,
               Event.out_be64 .iic (4 * 0x1000 + 0x68) 0,
               Event.out_be64 .iic (5 * 0x1000 + 0x68) 0]) := by
  have hout : ∀ (k : Nat) (v : Nat), k < 0x1000 →
      (Event.out_be64 .iic (a * 0x1000 + k) v).writesOtherCore a = false := by
    intro k v hk
    have : (a * 0x1000 + k) / 0x1000 = a := by omega
    simp [Event.writesOtherCore, this]
  have hscan : ∀ (p : Int) (msg : Msg) (v : Nat → Nat) (l : List Nat),
      ∀ e ∈ Event.printk msg p :: l.map (fun i => Event.writel .bridge (0x10 + i * 4) (v i)),
        ∀ b, e.writesOtherCore b = false := by
    intro p msg v l e he b
    rcases List.mem_cons.mp he with h | h
    · rw [h]; rfl
    · obtain ⟨i, _, hi⟩ := List.mem_map.mp h
      rw [← hi]; rfl
  refine ⟨?_, ?_, ?_, ?_, ?_, ?_⟩
  · refine ⟨_, iic_get_irq_trace_exact a m _ rfl, ?_⟩
    intro e he
    rcases List.mem_append.mp he with h1 | h1
    · rcases List.mem_append.mp h1 with h2 | h2
      · simp only [List.mem_cons, List.mem_singleton, List.not_mem_nil, or_false] at h2
        rcases h2 with h | h | h | h <;> rw [h]
        · rfl
        · exact hout 0x08 _ (by decide)
        · rfl
        · rfl
      · split_ifs at h2 <;>
          simp only [List.mem_cons, List.mem_singleton, List.not_mem_nil, or_false] at h2
        · rcases h2 with h | h <;> rw [h] <;> rfl
        · rw [h2]; rfl
        · rw [h2]; rfl
    · split_ifs at h1 <;>
        simp only [List.mem_cons, List.mem_singleton, List.not_mem_nil, or_false] at h1
      rcases h1 with h | h | h | h | h <;> rw [h]
      · rfl
      · exact hout 0x60 _ (by decide)
      · exact hout 0x68 _ (by decide)
      · rfl
      · rfl
  · refine ⟨[Event.out_be64 .iic (a * 0x1000 + 0x68) 0, Event.mb,
        Event.in_be64 .iic (a * 0x1000 + 0x8) (m.mem .iic (a * 0x1000 + 0x8))], ?_, ?_⟩
    · have h8 : (a * 0x1000 + 0x8) % 0x1000 ≠ 0x50 := by omega
      have hne : ¬ (a * 0x1000 + 0x8 = a * 0x1000 + 0x68) := by omega
      show (in_be64 (a * 0x1000 + 0x8) (mb (out_be64 (a * 0x1000 + 0x68) 0 m))).2.trace = _
      rw [in_be64_trace, in_be64_val _ _ h8]
      simp [mb, out_be64, Machine.emit, Machine.store, hne]
    · intro e he
      simp only [List.mem_cons, List.mem_singleton, List.not_mem_nil, or_false] at he
      rcases he with h | h | h <;> rw [h]
      · exact hout 0x68 _ (by decide)
      · rfl
      · rfl
  · intro t k
    rcases ipi_to_prio_cases k m with ⟨_, e⟩ | ⟨_, e⟩ | ⟨_, e⟩ | ⟨_, e⟩ | ⟨_, e⟩
    · rw [xenon_cause_IPI_ok m a t k _ e]
      exact ⟨[Event.out_be64 .iic (0x10 + a * 0x1000) (ipi_word t _ % 2 ^ 64)], rfl, fun ev hev => by
        rw [List.mem_singleton] at hev
        rw [hev, Nat.add_comm]
        exact hout 0x10 _ (by decide)⟩
    · rw [xenon_cause_IPI_ok m a t k _ e]
      exact ⟨[Event.out_be64 .iic (0x10 + a * 0x1000) (ipi_word t _ % 2 ^ 64)], rfl, fun ev hev => by
        rw [List.mem_singleton] at hev
        rw [hev, Nat.add_comm]
        exact hout 0x10 _ (by decide)⟩
    · rw [xenon_cause_IPI_ok m a t k _ e]
      exact ⟨[Event.out_be64 .iic (0x10 + a * 0x1000) (ipi_word t _ % 2 ^ 64)], rfl, fun ev hev => by
        rw [List.mem_singleton] at hev
        rw [hev, Nat.add_comm]
        exact hout 0x10 _ (by decide)⟩
    · rw [xenon_cause_IPI_ok m a t k _ e]
      exact ⟨[Event.out_be64 .iic (0x10 + a * 0x1000) (ipi_word t _ % 2 ^ 64)], rfl, fun ev hev => by
        rw [List.mem_singleton] at hev
        rw [hev, Nat.add_comm]
        exact hout 0x10 _ (by decide)⟩
    · refine ⟨[Event.printk .unhandled_ipi k], ?_, ?_⟩
      · unfold xenon_cause_IPI; rw [e]; rfl
      · intro ev hev
        rw [List.mem_singleton] at hev
        rw [hev]; rfl
  · obtain ⟨m1, hrun, htr, -, -, -, -⟩ := xenon_init_irq_on_cpu_run a m
    refine ⟨m1, _, hrun, htr, ?_⟩
    intro e he
    simp only [List.mem_append, List.mem_cons, List.mem_singleton, List.mem_map,
      List.not_mem_nil, or_false] at he
    rcases he with (((h | h | h | h) | ⟨x, _, h⟩) | h)
    · rw [h]; rfl
    · rw [h]; exact hout 0x70 _ (by decide)
    · rw [h]; exact hout 0x8 _ (by decide)
    · rw [h]
      have h0 : a * 0x1000 / 0x1000 = a := by omega
      simp [Event.writesOtherCore, h0]
    · rw [← h]; rfl
    · rw [h]; exact hout 0x68 _ (by decide)
  · intro irq
    refine ⟨Event.printk .disconnect_irq (u32_to_int irq) ::
        ((List.range 0x10).filter (fun i => decide (pci_irq_map_at i = u32_to_int irq))).map
          (fun i => Event.writel .bridge (0x10 + i * 4) ((fun _ => 0) i % 2 ^ 32)), ?_,
      hscan _ _ _ _⟩
    unfold iic_mask disconnect_pci_irq
    rw [scan_trace (disconnect_step _) (fun _ => 0) _ (disconnect_step_eq _)]
    simp [printk, Machine.emit]
  · intro irq
    have hc : (connect_pci_irq (u32_to_int irq) m).trace = m.trace ++
        (Event.printk .connect_irq (u32_to_int irq) ::
          ((List.range 0x10).filter (fun i => decide (pci_irq_map_at i = u32_to_int irq))).map
            (fun i => Event.writel .bridge (0x10 + i * 4) (connect_value i % 2 ^ 32))) := by
      unfold connect_pci_irq
      rw [scan_trace (connect_step _) connect_value _ (connect_step_eq _)]
      simp [printk, Machine.emit]
    refine ⟨_, hc, hscan _ _ _ _, ?_⟩
    unfold iic_unmask
    rw [unmask_fold_trace, hc]
    rfl

/-- C22, as stated, fails: `iic_unmask` of the clock line, run on core 0 of the sample
machine, writes offset `0x68` of the regions of cores 1 to 5. -/
theorem controller_ops_own_region_counterexample :
    (iic_unmask 0x74 Machine.sample).trace.filter (Event.writesOtherCore 0)
      = [Event.out_be64 .iic 0x1068 0, Event.out_be64 .iic 0x2068 0,
         Event.out_be64 .iic 0x3068 0, Event.out_be64 .iic 0x4068 0,
         Event.out_be64 .iic 0x5068 0] := by
  decide

/-- Core 1 of the sample machine ending an interrupt: its one write stays in its own
region. -/
theorem controller_ops_own_region_witness :
    ∃ evs, (iic_eoi 1 Machine.sample).trace = Machine.sample.trace ++ evs
      ∧ ∀ e ∈ evs, e.writesOtherCore 1 = false :=
  (controller_ops_own_region 1 Machine.sample).2.1

/-! ## Order of the accesses of a poll -/

/-- C24: whatever value `raw` the pending register returns, the events of `iic_get_irq`
on core `c` start with the read of offset `0x50`, the write of `0x7C` to offset `0x08`,
the barrier and the read-back of offset `0x08`, all in the region of core `c`; every
later read is of offset `0x08`, so the pending register is read once, and exactly one
latched value is consumed. -/
theorem iic_get_irq_access_order (c : Nat) (m : Machine) (raw : Nat)
    (hraw : (m.pending c).headD 0x7C = raw) :
    ∃ rest, (iic_get_irq c m).2.trace = m.trace ++
          [Event.in_be64 .iic (c * 0x1000 + 0x50) raw,
           Event.out_be64 .iic (c * 0x1000 + 0x08) 0x7c,
           Event.mb,
           Event.in_be64 .iic (c * 0x1000 + 0x8) 0x7c] ++ rest
      ∧ (∀ e ∈ rest, ∀ w o v, e = Event.in_be64 w o v → w = Window.iic ∧ o = c * 0x1000 + 0x8)
      ∧ (iic_get_irq c m).2.pending c = (m.pending c).tail
      ∧ ∀ b, b ≠ c → (iic_get_irq c m).2.pending b = m.pending b := by
  refine ⟨(if raw &&& 0x7F = 0x58 then
        [Event.writel .graphics 0xed0 0, Event.writel .graphics 0x6540 0]
       else if raw &&& 0x7F = 0x68 then [Event.writel .biu 0x4002c 0]
       else if raw &&& 0x7F = 0x74 then [Event.writel .bridge 0x106C 0]
       else [])
      ++ (if m.action (raw &&& 0x7F) = false then
        [Event.printk .irq_unhandled ((raw &&& 0x7F : Nat) : Int),
         Event.out_be64 .iic (c * 0x1000 + 0x60) 0,
         Event.out_be64 .iic (c * 0x1000 + 0x68) 0,
         Event.mb,
         Event.in_be64 .iic (c * 0x1000 + 0x8) 0x7c]
       else []), ?_, ?_, ?_, ?_⟩
  · rw [iic_get_irq_trace_exact c m raw hraw]
    simp only [List.append_assoc]
  · intro e he w o v hev
    rcases List.mem_append.mp he with h1 | h1
    · split_ifs at h1 <;>
        simp only [List.mem_cons, List.mem_singleton, List.not_mem_nil, or_false] at h1
      · rcases h1 with h | h <;> rw [h] at hev <;> cases hev
      · rw [h1] at hev; cases hev
      · rw [h1] at hev; cases hev
    · split_ifs at h1 <;>
        simp only [List.mem_cons, List.mem_singleton, List.not_mem_nil, or_false] at h1
      rcases h1 with h | h | h | h | h <;> rw [h] at hev
      · cases hev
      · cases hev
      · cases hev
      · cases hev
      · rw [Event.in_be64.injEq] at hev
        exact ⟨hev.1.symm, hev.2.1.symm⟩
  · rw [(iic_get_irq_state c m).1, (in_be64_pending_rest c m).1]
  · intro b hb
    rw [(iic_get_irq_state c m).1, (in_be64_pending_rest c m).2 b hb]

/-- Core 3 with the raw value `0x1f4` latched, whatever its upper bits. -/
theorem iic_get_irq_access_order_witness :
    ∃ rest, (iic_get_irq 3 { Machine.sample with pending := fun _ => [0x1f4] }).2.trace
        = Machine.sample.trace ++
          [Event.in_be64 .iic (3 * 0x1000 + 0x50) 0x1f4,
           Event.out_be64 .iic (3 * 0x1000 + 0x08) 0x7c,
           Event.mb,
           Event.in_be64 .iic (3 * 0x1000 + 0x8) 0x7c] ++ rest
      ∧ (∀ e ∈ rest, ∀ w o v, e = Event.in_be64 w o v →
          w = Window.iic ∧ o = 3 * 0x1000 + 0x8)
      ∧ (iic_get_irq 3 { Machine.sample with pending := fun _ => [0x1f4] }).2.pending 3
          = [0x1f4].tail
      ∧ ∀ b, b ≠ 3 →
          (iic_get_irq 3 { Machine.sample with pending := fun _ => [0x1f4] }).2.pending b
            = [0x1f4] :=
  iic_get_irq_access_order 3 { Machine.sample with pending := fun _ => [0x1f4] } 0x1f4 rfl

/-- C25: when `iic_get_irq` decodes one of the codes its `switch` special-cases (`0x58`,
`0x68`, `0x74`), its register writes are, in order: the re-arm of offset `0x08`, the
side-channel write(s) for the code, and, only when no handler is registered, the
acknowledge write (offset `0x60`) and the EOI write (offset `0x68`). The side-channel
writes are the same with and without a handler. -/
theorem iic_get_irq_side_channel_first (c : Nat) (m : Machine) (raw : Nat)
    (hraw : (m.pending c).headD 0x7C = raw)
    (hspecial : raw &&& 0x7F = 0x58 ∨ raw &&& 0x7F = 0x68 ∨ raw &&& 0x7F = 0x74) :
    ∃ evs, (iic_get_irq c m).2.trace = m.trace ++ evs
      ∧ evs.filter Event.isWrite =
          [Event.out_be64 .iic (c * 0x1000 + 0x08) 0x7c]
          ++ (if raw &&& 0x7F = 0x58 then
                [Event.writel .graphics 0xed0 0, Event.writel .graphics 0x6540 0]
              else if raw &&& 0x7F = 0x68 then [Event.writel .biu 0x4002c 0]
              else [Event.writel .bridge 0x106C 0])
          ++ (if m.action (raw &&& 0x7F) = false then
                [Event.out_be64 .iic (c * 0x1000 + 0x60) 0,
                 Event.out_be64 .iic (c * 0x1000 + 0x68) 0]
              else []) := by
  refine ⟨_, iic_get_irq_trace_exact c m raw hraw, ?_⟩
  have htail : ∀ x : Int, (if m.action (raw &&& 0x7F) = false then
        [Event.printk .irq_unhandled x,
         Event.out_be64 .iic (c * 0x1000 + 0x60) 0,
         Event.out_be64 .iic (c * 0x1000 + 0x68) 0,
         Event.mb,
         Event.in_be64 .iic (c * 0x1000 + 0x8) 0x7c]
       else []).filter Event.isWrite =
      (if m.action (raw &&& 0x7F) = false then
        [Event.out_be64 .iic (c * 0x1000 + 0x60) 0,
         Event.out_be64 .iic (c * 0x1000 + 0x68) 0]
       else []) := by
    intro x
    split <;> simp [Event.isWrite]
  rw [List.filter_append, List.filter_append, htail]
  rcases hspecial with h | h | h <;> simp [h, Event.isWrite]

/-- Core 0 with the clock code `0x74` latched and no handler: re-arm, bridge
acknowledgment, acknowledge, EOI. -/
theorem iic_get_irq_side_channel_first_witness :
    (0x74 &&& 0x7F = 0x58 ∨ 0x74 &&& 0x7F = 0x68 ∨ 0x74 &&& 0x7F = 0x74)
      ∧ ∃ evs, (iic_get_irq 0 { Machine.sample with pending := fun _ => [0x74] }).2.trace
          = Machine.sample.trace ++ evs
        ∧ evs.filter Event.isWrite =
            [Event.out_be64 .iic (0 * 0x1000 + 0x08) 0x7c]
            ++ (if 0x74 &&& 0x7F = 0x58 then
                  [Event.writel .graphics 0xed0 0, Event.writel .graphics 0x6540 0]
                else if 0x74 &&& 0x7F = 0x68 then [Event.writel .biu 0x4002c 0]
                else [Event.writel .bridge 0x106C 0])
            ++ (if Machine.sample.action (0x74 &&& 0x7F) = false then
                  [Event.out_be64 .iic (0 * 0x1000 + 0x60) 0,
                   Event.out_be64 .iic (0 * 0x1000 + 0x68) 0]
                else []) :=
  ⟨by decide,
    iic_get_irq_side_channel_first 0 { Machine.sample with pending := fun _ => [0x74] } 0x74
      rfl (by decide)⟩

/-! ## The static route table -/

theorem u32_to_int_ne_neg_one (irq : Nat) (h : irq % 2 ^ 32 ≠ 0xffffffff) :
    u32_to_int irq ≠ -1 := by
  unfold u32_to_int
  split <;> omega

/-- C26, as the code has it: for every priority argument other than -1, and so for every
interrupt number other than the all-ones one, `connect_pci_irq`, `disconnect_pci_irq`,
`iic_mask` and `iic_unmask` leave the routing registers of the unrouted slots 8, 9, 14
and 15 as they were. With the argument -1 the scan matches the sentinel entries: from
any state `connect_pci_irq (-1)` leaves `0x0800180` and `disconnect_pci_irq (-1)` leaves
0 in each of these four registers. -/
theorem unrouted_slots_untouched (m : Machine) (p : Int) (s : Nat) (hp : p ≠ -1)
    (hs : s = 8 ∨ s = 9 ∨ s = 14 ∨ s = 15) :
    pci_irq_map_at s = -1
      ∧ (connect_pci_irq p m).mem .bridge (0x10 + 4 * s) = m.mem .bridge (0x10 + 4 * s)
      ∧ (disconnect_pci_irq p m).mem .bridge (0x10 + 4 * s) = m.mem .bridge (0x10 + 4 * s)
      ∧ (∀ irq, irq % 2 ^ 32 ≠ 0xffffffff →
          (iic_mask irq m).mem .bridge (0x10 + 4 * s) = m.mem .bridge (0x10 + 4 * s)
            ∧ (iic_unmask irq m).mem .bridge (0x10 + 4 * s)
                = m.mem .bridge (0x10 + 4 * s))
      ∧ (connect_pci_irq (-1) m).mem .bridge (0x10 + 4 * s) = 0x0800180
      ∧ (disconnect_pci_irq (-1) m).mem .bridge (0x10 + 4 * s) = 0 := by
  have hmap : pci_irq_map_at s = -1 := by
    rcases hs with h | h | h | h <;> rw [h] <;> rfl
  have hs16 : s < 0x10 := by omega
  have hval : connect_value s % 2 ^ 32 = 0x0800180 := by
    rcases hs with h | h | h | h <;> rw [h] <;> rfl
  have hfr : ∀ q : Int, q ≠ -1 → ∀ i ∈ List.range 0x10, pci_irq_map_at i = q →
      ¬ (Window.bridge = Window.bridge ∧ 0x10 + 4 * s = 0x10 + i * 4) := by
    intro q hq i _ hi hc
    have : i = s := by omega
    rw [this, hmap] at hi
    exact hq hi.symm
  have hc : ∀ q : Int, q ≠ -1 →
      (connect_pci_irq q m).mem .bridge (0x10 + 4 * s) = m.mem .bridge (0x10 + 4 * s) := by
    intro q hq
    unfold connect_pci_irq
    rw [scan_mem_frame (connect_step q) connect_value q (connect_step_eq q) Window.bridge
      (0x10 + 4 * s) _ _ (hfr q hq)]
    rfl
  have hd : ∀ q : Int, q ≠ -1 →
      (disconnect_pci_irq q m).mem .bridge (0x10 + 4 * s) = m.mem .bridge (0x10 + 4 * s) := by
    intro q hq
    unfold disconnect_pci_irq
    rw [scan_mem_frame (disconnect_step q) (fun _ => 0) q (disconnect_step_eq q) Window.bridge
      (0x10 + 4 * s) _ _ (hfr q hq)]
    rfl
  refine ⟨hmap, hc p hp, hd p hp,
    fun irq hirq => ⟨hd _ (u32_to_int_ne_neg_one irq hirq), ?_⟩, ?_, ?_⟩
  · unfold iic_unmask
    rw [unmask_fold_mem, if_neg (fun h => absurd h.1 (by decide))]
    exact hc _ (u32_to_int_ne_neg_one irq hirq)
  · unfold connect_pci_irq
    rw [Nat.mul_comm 4 s, scan_mem_slot (connect_step (-1)) connect_value (-1)
      (connect_step_eq (-1)) s hmap (List.range 0x10) _ (List.nodup_range 0x10)
      (List.mem_range.mpr hs16), hval]
  · unfold disconnect_pci_irq
    rw [Nat.mul_comm 4 s, scan_mem_slot (disconnect_step (-1)) (fun _ => 0) (-1)
      (disconnect_step_eq (-1)) s hmap (List.range 0x10) _ (List.nodup_range 0x10)
      (List.mem_range.mpr hs16)]
    rfl

/-- Slot 9 of the sample machine under a connect and a disconnect of the clock code. -/
theorem unrouted_slots_untouched_witness :
    ((0x74 : Int) ≠ -1 ∧ ((9 : Nat) = 8 ∨ (9 : Nat) = 9 ∨ (9 : Nat) = 14 ∨ (9 : Nat) = 15))
      ∧ (connect_pci_irq 0x74 Machine.sample).mem .bridge (0x10 + 4 * 9)
          = Machine.sample.mem .bridge (0x10 + 4 * 9)
      ∧ (disconnect_pci_irq 0x74 Machine.sample).mem .bridge (0x10 + 4 * 9)
          = Machine.sample.mem .bridge (0x10 + 4 * 9) :=
  ⟨by decide,
    (unrouted_slots_untouched Machine.sample 0x74 9 (by decide) (by decide)).2.1,
    (unrouted_slots_untouched Machine.sample 0x74 9 (by decide) (by decide)).2.2.1⟩

/-- C26, as stated, fails: the argument -1 matches the sentinel entries, so
`connect_pci_irq (-1)` writes `0x0800180` and `disconnect_pci_irq (-1)` writes 0 to the
register of the unrouted slot 8, and `iic_unmask` of the all-ones interrupt number does
so to slot 15. -/
theorem unrouted_slots_counterexample :
    pci_irq_map_at 8 = -1 ∧ pci_irq_map_at 15 = -1 ∧ u32_to_int 0xffffffff = -1
      ∧ Machine.sample.mem .bridge (0x10 + 4 * 8) = 0xffffffff
      ∧ (connect_pci_irq (-1) Machine.sample).mem .bridge (0x10 + 4 * 8) = 0x0800180
      ∧ (disconnect_pci_irq (-1) Machine.sample).mem .bridge (0x10 + 4 * 8) = 0
      ∧ (iic_unmask 0xffffffff Machine.sample).mem .bridge (0x10 + 4 * 15) = 0x0800180 := by
  decide

/-- The routed entries of the table are pairwise distinct. -/
theorem pci_irq_map_injective :
    ∀ i, i < 0x10 → ∀ j, j < 0x10 → pci_irq_map_at i ≠ -1 →
      pci_irq_map_at i = pci_irq_map_at j → i = j := by
  decide

/-- A list without repetition whose members are all equal has at most one member. -/
theorem length_le_one_of_all_eq (l : List Nat) (hnd : l.Nodup)
    (h : ∀ i ∈ l, ∀ j ∈ l, i = j) : l.length ≤ 1 := by
  match l, hnd, h with
  | [], _, _ => simp
  | [_], _, _ => simp
  | a :: b :: t, hnd, h =>
    exfalso
    have hab : a = b := h a (List.mem_cons_self a _) b
      (List.mem_cons_of_mem a (List.mem_cons_self b t))
    rw [List.nodup_cons] at hnd
    exact hnd.1 (hab ▸ List.mem_cons_self b t)

/-- C27: the routed entries of `xenon_pci_irq_map` are twelve pairwise distinct codes,
none of them an IPI code or the idle sentinel `0x7C`; so for every non-negative `p` at
most one slot maps to `p`, and `connect_pci_irq p` and `disconnect_pci_irq p` write at
most one bridge register. -/
theorem route_table_distinct :
    (∀ i, i < 0x10 → ∀ j, j < 0x10 → pci_irq_map_at i ≠ -1 →
        pci_irq_map_at i = pci_irq_map_at j → i = j)
      ∧ ((List.range 0x10).filter (fun i => decide (pci_irq_map_at i ≠ -1))).length = 12
      ∧ (∀ i, i < 0x10 →
          pci_irq_map_at i ∉ [PRIO_IPI_1, PRIO_IPI_2, PRIO_IPI_3, PRIO_IPI_4, 0x7C])
      ∧ (∀ (p : Int) (m : Machine), 0 ≤ p →
          ∃ ws : List Nat, ws.length ≤ 1 ∧ (∀ s ∈ ws, s < 0x10 ∧ pci_irq_map_at s = p)
            ∧ (connect_pci_irq p m).trace = m.trace ++ Event.printk .connect_irq p ::
                ws.map (fun s => Event.writel .bridge (0x10 + s * 4) (connect_value s % 2 ^ 32))
            ∧ (disconnect_pci_irq p m).trace = m.trace ++ Event.printk .disconnect_irq p ::
                ws.map (fun s => Event.writel .bridge (0x10 + s * 4) 0)) := by
  refine ⟨pci_irq_map_injective, by decide, by decide, ?_⟩
  intro p m hp
  have hmem : ∀ s ∈ (List.range 0x10).filter (fun i => decide (pci_irq_map_at i = p)),
      s < 0x10 ∧ pci_irq_map_at s = p := by
    intro s hs
    rw [List.mem_filter, List.mem_range] at hs
    exact ⟨hs.1, by simpa using hs.2⟩
  refine ⟨(List.range 0x10).filter (fun i => decide (pci_irq_map_at i = p)), ?_, hmem, ?_, ?_⟩
  · apply length_le_one_of_all_eq _ ((List.nodup_range 0x10).filter _)
    intro i hi j hj
    obtain ⟨hi1, hi2⟩ := hmem i hi
    obtain ⟨hj1, hj2⟩ := hmem j hj
    exact pci_irq_map_injective i hi1 j hj1 (by rw [hi2]; omega) (by rw [hi2, hj2])
  · unfold connect_pci_irq
    rw [scan_trace (connect_step p) connect_value p (connect_step_eq p)]
    simp [printk, Machine.emit]
  · unfold disconnect_pci_irq
    rw [scan_trace (disconnect_step p) (fun _ => 0) p (disconnect_step_eq p)]
    simp [printk, Machine.emit]

/-- The clock code `0x74` on the sample machine: at most one register is written. -/
theorem route_table_distinct_witness :
    (0 : Int) ≤ 0x74
      ∧ ∃ ws : List Nat, ws.length ≤ 1 ∧ (∀ s ∈ ws, s < 0x10 ∧ pci_irq_map_at s = 0x74)
        ∧ (connect_pci_irq 0x74 Machine.sample).trace
            = Machine.sample.trace ++ Event.printk .connect_irq 0x74 ::
              ws.map (fun s => Event.writel .bridge (0x10 + s * 4) (connect_value s % 2 ^ 32))
        ∧ (disconnect_pci_irq 0x74 Machine.sample).trace
            = Machine.sample.trace ++ Event.printk .disconnect_irq 0x74 ::
              ws.map (fun s => Event.writel .bridge (0x10 + s * 4) 0) :=
  ⟨by decide, route_table_distinct.2.2.2 0x74 Machine.sample (by decide)⟩

/-- C28: for every routed slot with priority `p`, `p` is a multiple of 4 and `p/4` is
below `0x80` and shares no bit with `0x0800180`, so the routing word is
`0x0800180 + p/4` and `p` is `4 * (word & 0x7F)`; two different routed slots have
different routing words. -/
theorem connect_value_field :
    (∀ s, s < 0x10 → pci_irq_map_at s ≠ -1 →
        pci_irq_map_at s % 4 = 0
          ∧ 0 ≤ pci_irq_map_at s / 4 ∧ pci_irq_map_at s / 4 < 0x80
          ∧ 0x0800180 &&& (pci_irq_map_at s / 4).toNat = 0
          ∧ connect_value s = 0x0800180 + (pci_irq_map_at s / 4).toNat
          ∧ ((4 * (connect_value s &&& 0x7F) : Nat) : Int) = pci_irq_map_at s)
      ∧ (∀ s, s < 0x10 → ∀ t, t < 0x10 → pci_irq_map_at s ≠ -1 → pci_irq_map_at t ≠ -1 →
          s ≠ t → connect_value s ≠ connect_value t) := by
  have hinj : ∀ s, s < 0x10 → ∀ t, t < 0x10 →
      (pci_irq_map_at s ≠ -1 ∧ pci_irq_map_at t ≠ -1 ∧ connect_value s = connect_value t) →
        s = t := by
    decide
  exact ⟨by decide, fun s hs t ht h1 h2 hne hc => hne (hinj s hs t ht ⟨h1, h2, hc⟩)⟩

/-- Slot 10, the network line with code `0x4C`: the word is `0x0800180 + 0x13`. -/
theorem connect_value_field_witness :
    (10 < 0x10 ∧ pci_irq_map_at 10 ≠ -1)
      ∧ connect_value 10 = 0x0800180 + (pci_irq_map_at 10 / 4).toNat
      ∧ ((4 * (connect_value 10 &&& 0x7F) : Nat) : Int) = pci_irq_map_at 10 :=
  ⟨by decide, (connect_value_field.1 10 (by decide) (by decide)).2.2.2.2.1,
    (connect_value_field.1 10 (by decide) (by decide)).2.2.2.2.2⟩

/-! ## The drain loop against the poll -/

/-- C29, on the code: with the raw values `0xFC` and `0x20` latched on core 0, the poll
decodes the first read as the sentinel (`0xFC & 0x7F = 0x7C`) and reports `NO_IRQ`,
leaving `0x20` latched; the drain loop compares the whole value with `0x7C`, so it does
not stop at `0xFC`: it also consumes `0x20` and stops only at the read of exactly `0x7C`,
and with a bound of two reads it has not returned. -/
theorem drain_pending_compares_whole_value :
    0xFC &&& 0x7F = 0x7C
      ∧ (iic_get_irq 0 { Machine.sample with
            pending := fun _ => [0xFC, 0x20], action := fun _ => true }).1 = NO_IRQ
      ∧ (iic_get_irq 0 { Machine.sample with
            pending := fun _ => [0xFC, 0x20], action := fun _ => true }).2.pending 0 = [0x20]
      ∧ (xenon_init_irq_on_cpu 3 0 { Machine.sample with
            pending := fun _ => [0xFC, 0x20], action := fun _ => true }).map
          (fun m => (m.pending 0, m.trace))
        = some ([],
            [Event.printk .init_on_cpu 0,
             Event.out_be64 .iic 0x70 0x7c,
             Event.out_be64 .iic 0x8 0,
             Event.out_be64 .iic 0 1,
             Event.in_be64 .iic 0x50 0xFC,
             Event.in_be64 .iic 0x50 0x20,
             Event.in_be64 .iic 0x50 0x7C,
             Event.out_be64 .iic 0x68 0])
      ∧ (xenon_init_irq_on_cpu 2 0 { Machine.sample with
            pending := fun _ => [0xFC, 0x20], action := fun _ => true }).isNone = true := by
  decide

/-! ## SMC reply cache -/

/-- Over rows that all start with a non-zero byte the lookup loop never returns `NULL`:
it finds a row or runs past the last one. -/
theorem smc_cache_lookup_from_ne_null (msg0 : Nat) (rows : List (List Nat)) :
    ∀ i : Nat, (∀ r ∈ rows, r.headD 0 ≠ 0) → smc_cache_lookup_from msg0 rows i ≠ .null := by
  induction rows with
  | nil => intro i _ h; cases h
  | cons row rest ih =>
    intro i hall
    have hrow : row.headD 0 ≠ 0 := hall row (List.mem_cons_self row rest)
    unfold smc_cache_lookup_from
    rw [if_neg hrow]
    split
    · intro h; cases h
    · exact ih (i + 1) (fun r hr => hall r (List.mem_cons_of_mem row hr))

/-- C30, on the code: `smc_reply` has 13 rows and none with a zero first byte, so the
loop of `_xenon_smc_cache_lookup` is never stopped by `ptr[0] == 0` inside the table: a
cached id is found in its row, but for an id that is not cached, 0 included, the loop
reads `ptr[0]` at row index 13, past the last row, and `NULL` is never returned from
within the table. -/
theorem smc_cache_lookup_overruns :
    smc_reply.length = 13
      ∧ _xenon_smc_cache_lookup smc_reply (smc_row 0x83) = .found 12
      ∧ _xenon_smc_cache_lookup smc_reply (smc_row 0x02) = .out_of_bounds 13
      ∧ _xenon_smc_cache_lookup smc_reply (smc_row 0) = .out_of_bounds 13
      ∧ ∀ msg : List Nat, _xenon_smc_cache_lookup smc_reply msg ≠ .null := by
  refine ⟨rfl, by decide, by decide, by decide, ?_⟩
  intro msg
  exact smc_cache_lookup_from_ne_null (msg.headD 0) smc_reply 0 (by decide)

/-! ## Two sends to one target -/

end Xenon
